import Mathlib

/-!
Verification development for the trader-analytics engine of
`scripts/analyze_traders.py` (manifold-analyzer).  The Python functions
`estimate_pnl`, `analyze_timing`, `analyze_position_changes`,
`analyze_market_impact` and `classify_traders` are embedded shallowly:
numbers become `ℚ`, Python dicts (insertion ordered) become association
lists, `sorted` (a stable sort) becomes `List.insertionSort` with a
reflexive total relation, and Python `round(x, n)` becomes rational
rounding half-to-even.
-/

/-- Canonical trade record, the unit of the `trades` array consumed by every
analyzer.  Probabilities are stored on the 0-100 scale, as produced by
`parse_trades.py` / `fetch_market_data.py`. -/
structure Trade where
  user : String
  amount : ℚ
  outcome : String
  prob_before : ℚ
  prob_after : ℚ
  timestamp : ℚ
  date : String
  is_redemption : Bool
deriving DecidableEq

/-- Python `round` rounds half to even; this is the integer-valued core. -/
def roundHalfEven (x : ℚ) : ℤ :=
  let f := ⌊x⌋
  let r := x - (f : ℚ)
  if r < 1/2 then f
  else if 1/2 < r then f + 1
  else if f % 2 = 0 then f else f + 1

/-- Python `round(x, 2)`. -/
def round2 (x : ℚ) : ℚ := (roundHalfEven (x * 100) : ℚ) / 100

/-- Python `round(x, 1)`. -/
def round1 (x : ℚ) : ℚ := (roundHalfEven (x * 10) : ℚ) / 10

/-- Lookup in an insertion-ordered association list (a Python dict). -/
def lookupA (k : String) : List (String × α) → Option α
  | [] => none
  | (k2, v) :: rest => if k2 = k then some v else lookupA k rest

/-- Overwrite the value at `k` in place, or append a fresh entry at the end:
Python dict assignment, which keeps insertion order. -/
def setAssoc (k : String) (v : α) : List (String × α) → List (String × α)
  | [] => [(k, v)]
  | (k2, v2) :: rest => if k2 = k then (k, v) :: rest else (k2, v2) :: setAssoc k v rest

/-- Python defaultdict read-modify-write: apply `f` to the current value at `k`,
materialising the default `d` first when `k` is absent. -/
def updAssoc (k : String) (f : α → α) (d : α) (m : List (String × α)) : List (String × α) :=
  setAssoc k (f ((lookupA k m).getD d)) m

/-- Sort key of the Python sorted call keyed on the timestamp field. -/
def tsLE (a b : Trade) : Prop := a.timestamp ≤ b.timestamp

instance : DecidableRel tsLE := fun a b => inferInstanceAs (Decidable (a.timestamp ≤ b.timestamp))

instance : IsTotal Trade tsLE := ⟨fun a b => le_total a.timestamp b.timestamp⟩

instance : IsTrans Trade tsLE := ⟨fun _ _ _ h1 h2 => le_trans h1 h2⟩

instance : IsRefl Trade tsLE := ⟨fun _ => le_refl _⟩

/-! ## estimate_pnl -/

/-- Per-trader accumulator of `estimate_pnl` (the `trader_positions` default). -/
structure TraderPos where
  yes_shares : ℚ := 0
  no_shares : ℚ := 0
  yes_cost : ℚ := 0
  no_cost : ℚ := 0
  trades : List Trade := []
deriving DecidableEq

/-- One loop iteration of `estimate_pnl` (lines 49-64): convert `prob_before`
to a decimal, credit implied shares and cost on the traded side, and record
the trade. -/
def pnlStep (t : Trade) (p : TraderPos) : TraderPos :=
  let prob := t.prob_before / 100
  let p2 :=
    if t.outcome = "YES" then
      let shares := if prob > 0 then t.amount / prob else 0
      { p with yes_shares := p.yes_shares + shares, yes_cost := p.yes_cost + t.amount }
    else
      let shares := if prob < 1 then t.amount / (1 - prob) else 0
      { p with no_shares := p.no_shares + shares, no_cost := p.no_cost + t.amount }
  { p2 with trades := p2.trades ++ [t] }

/-- The accumulation loop of `estimate_pnl`: skip redemptions, fold the rest
into the per-trader map. -/
def traderPositions (trades : List Trade) : List (String × TraderPos) :=
  trades.foldl (fun m t => if t.is_redemption then m else updAssoc t.user (pnlStep t) {} m) []

/-- Output row of `estimate_pnl`. -/
structure PnlRecord where
  user : String
  yes_cost : ℚ
  no_cost : ℚ
  total_cost : ℚ
  yes_value : ℚ
  no_value : ℚ
  estimated_pnl : ℚ
  roi_pct : ℚ
  trade_count : ℕ
  position : String
deriving DecidableEq

/-- Result-building part of `estimate_pnl` (lines 68-92). -/
def pnlRecord (current_prob : ℚ) (e : String × TraderPos) : PnlRecord :=
  let pos := e.2
  let yes_value := pos.yes_shares * current_prob
  let yes_pnl := yes_value - pos.yes_cost
  let no_value := pos.no_shares * (1 - current_prob)
  let no_pnl := no_value - pos.no_cost
  let total_pnl := yes_pnl + no_pnl
  let total_cost := pos.yes_cost + pos.no_cost
  let roi := if total_cost > 0 then total_pnl / total_cost * 100 else 0
  { user := e.1
    yes_cost := round2 pos.yes_cost
    no_cost := round2 pos.no_cost
    total_cost := round2 total_cost
    yes_value := round2 yes_value
    no_value := round2 no_value
    estimated_pnl := round2 total_pnl
    roi_pct := round1 roi
    trade_count := pos.trades.length
    position := if pos.yes_cost > pos.no_cost then "LONG" else "SHORT" }

/-- Sort key of the final `sorted(..., key=estimated_pnl, reverse=True)`. -/
def pnlGE (a b : PnlRecord) : Prop := b.estimated_pnl ≤ a.estimated_pnl

instance : DecidableRel pnlGE := fun a b => inferInstanceAs (Decidable (b.estimated_pnl ≤ a.estimated_pnl))

instance : IsTotal PnlRecord pnlGE := ⟨fun a b => (le_total b.estimated_pnl a.estimated_pnl)⟩

instance : IsTrans PnlRecord pnlGE := ⟨fun _ _ _ h1 h2 => le_trans h2 h1⟩

instance : IsRefl PnlRecord pnlGE := ⟨fun _ => le_refl _⟩

/-- The function `estimate_pnl(trades, current_prob)`. -/
def estimate_pnl (trades : List Trade) (current_prob : ℚ) : List PnlRecord :=
  List.insertionSort pnlGE ((traderPositions trades).map (pnlRecord current_prob))

/-! ## analyze_timing -/

/-- Per-trader accumulator of `analyze_timing` (lines 111-118).  The Python
default initialises `first_trade_idx` to float infinity; it is modelled as
`none`, since the very next statement takes `min` with the current index. -/
structure TimingAcc where
  first_trade_idx : Option ℕ := none
  last_trade_idx : ℕ := 0
  early_trades : ℕ := 0
  mid_trades : ℕ := 0
  late_trades : ℕ := 0
  total : ℕ := 0
deriving DecidableEq

/-- One loop iteration of `analyze_timing` (lines 123-133) for the pair
`(idx, trade)` delivered by `enumerate`. -/
def timingStep (q1 q3 : ℕ) (it : ℕ × Trade) (a : TimingAcc) : TimingAcc :=
  let idx := it.1
  let a := { a with
    total := a.total + 1
    first_trade_idx := some (match a.first_trade_idx with | none => idx | some j => min j idx)
    last_trade_idx := max a.last_trade_idx idx }
  if idx < q1 then { a with early_trades := a.early_trades + 1 }
  else if idx < q3 then { a with mid_trades := a.mid_trades + 1 }
  else { a with late_trades := a.late_trades + 1 }

/-- Output row of `analyze_timing`. -/
structure TimingRecord where
  user : String
  timing_type : String
  first_trade_pct : ℚ
  early_trades : ℕ
  mid_trades : ℕ
  late_trades : ℕ
deriving DecidableEq

/-- Result-building part of `analyze_timing` (lines 136-147). -/
def timingRecord (total_trades : ℕ) (e : String × TimingAcc) : TimingRecord :=
  let d := e.2
  { user := e.1
    timing_type :=
      if d.early_trades > d.late_trades then "EARLY"
      else if d.late_trades > d.early_trades then "LATE" else "SPREAD"
    first_trade_pct := round1 (((d.first_trade_idx.getD 0 : ℕ) : ℚ) / (total_trades : ℚ) * 100)
    early_trades := d.early_trades
    mid_trades := d.mid_trades
    late_trades := d.late_trades }

/-- The per-trader map built by the loop of `analyze_timing`: note that the
sort, the length `total_trades` and the `enumerate` indices range over the
whole input including redemption trades, which are skipped only inside the
loop body. -/
def timingMap (q1 q3 : ℕ) (indexed : List (ℕ × Trade)) : List (String × TimingAcc) :=
  indexed.foldl
    (fun m it => if it.2.is_redemption then m else updAssoc it.2.user (timingStep q1 q3 it) {} m) []

/-- The function `analyze_timing(trades)`. -/
def analyze_timing (trades : List Trade) : List TimingRecord :=
  if trades = [] then []
  else
    let sorted_trades := List.insertionSort tsLE trades
    let total_trades := sorted_trades.length
    let q1_cutoff := total_trades / 4
    let q3_cutoff := total_trades * 3 / 4
    (timingMap q1_cutoff q3_cutoff sorted_trades.enum).map (timingRecord total_trades)

/-! ## analyze_position_changes -/

/-- Per-trade history entry appended by `analyze_position_changes`
(lines 159-164): `prob` keeps the raw `prob_before`. -/
structure HistEntry where
  outcome : String
  amount : ℚ
  date : String
  prob : ℚ
deriving DecidableEq

/-- Projection of a trade to its history entry. -/
def histOf (t : Trade) : HistEntry :=
  { outcome := t.outcome, amount := t.amount, date := t.date, prob := t.prob_before }

/-- The `trader_history` map: trades sorted by timestamp, redemptions
skipped, each remaining trade appended to the list of its trader. -/
def traderHistory (trades : List Trade) : List (String × List HistEntry) :=
  (List.insertionSort tsLE trades).foldl
    (fun m t => if t.is_redemption then m else updAssoc t.user (fun h => h ++ [histOf t]) [] m) []

/-- The flip-counting walk (lines 172-177): `last_direction` starts at the
first outcome; a differing outcome increments the count and updates
`last_direction`. -/
def countFlips (history : List HistEntry) : ℕ :=
  match history with
  | [] => 0
  | h :: rest =>
    (rest.foldl (fun s t => if t.outcome ≠ s.1 then (t.outcome, s.2 + 1) else s) (h.outcome, 0)).2

/-- Output row of `analyze_position_changes`. -/
structure FlipRecord where
  user : String
  trade_count : ℕ
  flips : ℕ
  is_flipper : Bool
  avg_yes_entry_prob : ℚ
  avg_no_entry_prob : ℚ
  first_position : String
  final_position : String
deriving DecidableEq

/-- Placeholder history entry for the (unreachable) empty-history access. -/
def dHist : HistEntry := { outcome := "", amount := 0, date := "", prob := 0 }

/-- Result-building part of `analyze_position_changes` (lines 171-202). -/
def flipRecord (e : String × List HistEntry) : FlipRecord :=
  let history := e.2
  let flips := countFlips history
  let yes_volume := ((history.filter (fun t => t.outcome = "YES")).map (fun t => t.amount)).sum
  let no_volume := ((history.filter (fun t => t.outcome = "NO")).map (fun t => t.amount)).sum
  let avg_yes_entry :=
    if yes_volume > 0 then
      ((history.filter (fun t => t.outcome = "YES")).map (fun t => t.prob * t.amount)).sum / yes_volume
    else 0
  let avg_no_entry :=
    if no_volume > 0 then
      ((history.filter (fun t => t.outcome = "NO")).map (fun t => t.prob * t.amount)).sum / no_volume
    else 0
  { user := e.1
    trade_count := history.length
    flips := flips
    is_flipper := decide (flips ≥ 2)
    avg_yes_entry_prob := round1 avg_yes_entry
    avg_no_entry_prob := round1 avg_no_entry
    first_position := (history.headD dHist).outcome
    final_position := (history.getLastD dHist).outcome }

/-- Sort key of `sorted(results, key=flips, reverse=True)`. -/
def flipGE (a b : FlipRecord) : Prop := b.flips ≤ a.flips

instance : DecidableRel flipGE := fun a b => inferInstanceAs (Decidable (b.flips ≤ a.flips))

instance : IsTotal FlipRecord flipGE := ⟨fun a b => (le_total b.flips a.flips)⟩

instance : IsTrans FlipRecord flipGE := ⟨fun _ _ _ h1 h2 => le_trans h2 h1⟩

instance : IsRefl FlipRecord flipGE := ⟨fun _ => le_refl _⟩

/-- The function `analyze_position_changes(trades)`: traders with fewer than 2 recorded
trades are dropped (line 168). -/
def analyze_position_changes (trades : List Trade) : List FlipRecord :=
  List.insertionSort flipGE
    (((traderHistory trades).filter (fun e => 2 ≤ e.2.length)).map flipRecord)

/-! ## analyze_market_impact -/

/-- Per-trader accumulator of `analyze_market_impact` (lines 209-213). -/
structure ImpactAcc where
  total_price_impact : ℚ := 0
  trades : ℕ := 0
  biggest_move : ℚ := 0
deriving DecidableEq

/-- One loop iteration of `analyze_market_impact` (lines 219-224): the
impact is the absolute probability move on the raw input scale. -/
def impactStep (t : Trade) (a : ImpactAcc) : ImpactAcc :=
  let impact := |t.prob_after - t.prob_before|
  { total_price_impact := a.total_price_impact + impact
    trades := a.trades + 1
    biggest_move := max a.biggest_move impact }

/-- Output row of `analyze_market_impact`. -/
structure ImpactRecord where
  user : String
  total_impact_pct : ℚ
  avg_impact_pct : ℚ
  biggest_move_pct : ℚ
  trade_count : ℕ
deriving DecidableEq

/-- Result-building part of `analyze_market_impact` (lines 227-235). -/
def impactRecord (e : String × ImpactAcc) : ImpactRecord :=
  let d := e.2
  let avg_impact := if d.trades > 0 then d.total_price_impact / (d.trades : ℚ) else 0
  { user := e.1
    total_impact_pct := round2 d.total_price_impact
    avg_impact_pct := round2 avg_impact
    biggest_move_pct := round2 d.biggest_move
    trade_count := d.trades }

/-- The per-trader map built by the loop of `analyze_market_impact`. -/
def impactMap (trades : List Trade) : List (String × ImpactAcc) :=
  trades.foldl (fun m t => if t.is_redemption then m else updAssoc t.user (impactStep t) {} m) []

/-- Sort key of `sorted(results, key=total_impact_pct, reverse=True)`. -/
def impactGE (a b : ImpactRecord) : Prop := b.total_impact_pct ≤ a.total_impact_pct

instance : DecidableRel impactGE := fun a b => inferInstanceAs (Decidable (b.total_impact_pct ≤ a.total_impact_pct))

instance : IsTotal ImpactRecord impactGE := ⟨fun a b => (le_total b.total_impact_pct a.total_impact_pct)⟩

instance : IsTrans ImpactRecord impactGE := ⟨fun _ _ _ h1 h2 => le_trans h2 h1⟩

instance : IsRefl ImpactRecord impactGE := ⟨fun _ => le_refl _⟩

/-- The function `analyze_market_impact(trades)`. -/
def analyze_market_impact (trades : List Trade) : List ImpactRecord :=
  List.insertionSort impactGE ((impactMap trades).map impactRecord)

/-! ## classify_traders -/

/-- Per-trader accumulator of `classify_traders` (lines 245-249). -/
structure StatsAcc where
  volume : ℚ := 0
  trades : ℕ := 0
  yes_pct : ℚ := 0
deriving DecidableEq

/-- One loop iteration of `classify_traders` (lines 254-256). -/
def statsStep (t : Trade) (s : StatsAcc) : StatsAcc :=
  { s with volume := s.volume + t.amount, trades := s.trades + 1 }

/-- The raw volume/count map of `classify_traders`. -/
def traderStats (trades : List Trade) : List (String × StatsAcc) :=
  trades.foldl (fun m t => if t.is_redemption then m else updAssoc t.user (statsStep t) {} m) []

/-- Lookup in the dict built from the P&L rows keyed by user, followed by
a safe get; in a Python dict comprehension a later duplicate key wins. -/
def pnlLookup (pnl_data : List PnlRecord) (u : String) : Option PnlRecord :=
  pnl_data.reverse.find? (fun p => p.user == u)

/-- The `yes_pct` pass of `classify_traders` (lines 259-263), which rewrites
each entry of `trader_stats` in place. -/
def traderStatsPct (trades : List Trade) (pnl_data : List PnlRecord) :
    List (String × StatsAcc) :=
  (traderStats trades).map (fun e =>
    let pnl := pnlLookup pnl_data e.1
    let yes_cost := (pnl.map (fun p => p.yes_cost)).getD 0
    let total := (pnl.map (fun p => p.total_cost)).getD 1
    (e.1, { e.2 with yes_pct := if total > 0 then yes_cost / total * 100 else 50 }))

/-- Descending order on rationals, the key of `sorted(volumes, reverse=True)`. -/
def qGE (a b : ℚ) : Prop := b ≤ a

instance : DecidableRel qGE := fun a b => inferInstanceAs (Decidable (b ≤ a))

instance : IsTotal ℚ qGE := ⟨fun a b => le_total b a⟩

instance : IsTrans ℚ qGE := ⟨fun _ _ _ h1 h2 => le_trans h2 h1⟩

instance : IsRefl ℚ qGE := ⟨fun _ => le_refl _⟩

/-- Line 267: `sorted(volumes, reverse=True)[min(10, len(volumes)-1)]`
when any volumes exist, else `0`. -/
def whaleThreshold (trades : List Trade) (pnl_data : List PnlRecord) : ℚ :=
  let volumes := (traderStatsPct trades pnl_data).map (fun e => e.2.volume)
  if volumes = [] then 0
  else (List.insertionSort qGE volumes).getD (min 10 (volumes.length - 1)) 0

/-- The label chain of `classify_traders` (lines 274-289). -/
def traderTypes (volume whale_thr : ℚ) (tradesCount : ℕ) (yes_pct roi_pct : ℚ) : List String :=
  let types : List String := []
  let types := if volume ≥ whale_thr then types ++ ["WHALE"] else types
  let types := if tradesCount ≥ 20 then types ++ ["ACTIVE"] else types
  let types :=
    if yes_pct ≥ 80 then types ++ ["BULL"]
    else if yes_pct ≤ 20 then types ++ ["BEAR"] else types
  let types :=
    if roi_pct > 50 then types ++ ["WINNER"]
    else if roi_pct < -30 then types ++ ["LOSER"] else types
  if types = [] then ["RETAIL"] else types

/-- Output row of `classify_traders`. -/
structure ClassifyRecord where
  user : String
  types : List String
  volume : ℚ
  trades : ℕ
  yes_pct : ℚ
  estimated_pnl : ℚ
  roi_pct : ℚ
deriving DecidableEq

/-- Result-building part of `classify_traders` (lines 270-299). -/
def classifyRecord (whale_thr : ℚ) (pnl_data : List PnlRecord) (e : String × StatsAcc) :
    ClassifyRecord :=
  let pnl := pnlLookup pnl_data e.1
  let roi := (pnl.map (fun p => p.roi_pct)).getD 0
  { user := e.1
    types := traderTypes e.2.volume whale_thr e.2.trades e.2.yes_pct roi
    volume := round2 e.2.volume
    trades := e.2.trades
    yes_pct := round1 e.2.yes_pct
    estimated_pnl := (pnl.map (fun p => p.estimated_pnl)).getD 0
    roi_pct := roi }

/-- Sort key of `sorted(results, key=volume, reverse=True)`. -/
def volGE (a b : ClassifyRecord) : Prop := b.volume ≤ a.volume

instance : DecidableRel volGE := fun a b => inferInstanceAs (Decidable (b.volume ≤ a.volume))

instance : IsTotal ClassifyRecord volGE := ⟨fun a b => (le_total b.volume a.volume)⟩

instance : IsTrans ClassifyRecord volGE := ⟨fun _ _ _ h1 h2 => le_trans h2 h1⟩

instance : IsRefl ClassifyRecord volGE := ⟨fun _ => le_refl _⟩

/-- The function `classify_traders(trades, pnl_data)`. -/
def classify_traders (trades : List Trade) (pnl_data : List PnlRecord) : List ClassifyRecord :=
  List.insertionSort volGE
    ((traderStatsPct trades pnl_data).map (classifyRecord (whaleThreshold trades pnl_data) pnl_data))

/-! ## Association-list toolkit -/

theorem lookup_setAssoc (k u : String) (v : α) (m : List (String × α)) :
    lookupA u (setAssoc k v m) = if k = u then some v else lookupA u m := by
  induction m with
  | nil =>
    by_cases h : k = u <;> simp [setAssoc, lookupA, h]
  | cons e rest ih =>
    obtain ⟨k2, v2⟩ := e
    by_cases h2 : k2 = k
    · subst h2
      by_cases h : k2 = u <;> simp [setAssoc, lookupA, h]
    · simp only [setAssoc, if_neg h2, lookupA]
      by_cases h : k2 = u
      · subst h
        have : ¬ k = k2 := fun hh => h2 hh.symm
        simp [lookupA, this]
      · simp [lookupA, h, ih]

theorem lookup_updAssoc (k u : String) (f : α → α) (d : α) (m : List (String × α)) :
    lookupA u (updAssoc k f d m) =
      if k = u then some (f ((lookupA u m).getD d)) else lookupA u m := by
  unfold updAssoc
  rw [lookup_setAssoc]
  by_cases h : k = u <;> simp [h]


theorem lookupA_eq_none_iff (u : String) (m : List (String × α)) :
    lookupA u m = none ↔ u ∉ m.map Prod.fst := by
  induction m with
  | nil => simp [lookupA]
  | cons e rest ih =>
    obtain ⟨k2, v2⟩ := e
    by_cases h : k2 = u
    · subst h
      simp [lookupA]
    · simp only [lookupA, if_neg h, List.map_cons, List.mem_cons, ih]
      constructor
      · intro hh
        rintro (rfl | hmem)
        · exact h rfl
        · exact hh hmem
      · intro hh hmem
        exact hh (Or.inr hmem)

theorem keys_setAssoc (k : String) (v : α) (m : List (String × α)) :
    (setAssoc k v m).map Prod.fst =
      if (lookupA k m).isNone then m.map Prod.fst ++ [k] else m.map Prod.fst := by
  induction m with
  | nil => simp [setAssoc, lookupA]
  | cons e rest ih =>
    obtain ⟨k2, v2⟩ := e
    by_cases h : k2 = k
    · subst h
      simp [setAssoc, lookupA]
    · have h2 : ¬ k2 = k := h
      simp only [setAssoc, if_neg h2, List.map_cons, lookupA, ih]
      by_cases h3 : (lookupA k rest).isNone <;> simp [h, h3]

theorem nodup_keys_setAssoc (k : String) (v : α) (m : List (String × α))
    (hm : (m.map Prod.fst).Nodup) : ((setAssoc k v m).map Prod.fst).Nodup := by
  rw [keys_setAssoc]
  by_cases h : (lookupA k m).isNone
  · rw [if_pos h]
    have hk : k ∉ m.map Prod.fst :=
      (lookupA_eq_none_iff k m).mp (Option.isNone_iff_eq_none.mp h)
    refine hm.append (List.nodup_singleton k) ?_
    intro a ha hb
    rcases List.mem_singleton.mp hb with rfl
    exact hk ha
  · rwa [if_neg h]

theorem lookupA_of_mem (u : String) (a : α) (m : List (String × α))
    (hm : (m.map Prod.fst).Nodup) (h : (u, a) ∈ m) : lookupA u m = some a := by
  induction m with
  | nil => simp at h
  | cons e rest ih =>
    obtain ⟨k2, v2⟩ := e
    rcases List.mem_cons.mp h with h1 | h1
    · cases h1
      simp [lookupA]
    · have hk : k2 ≠ u := by
        intro hh
        subst hh
        exact (List.nodup_cons.mp hm).1 (List.mem_map.mpr ⟨(k2, a), h1, rfl⟩)
      simp only [lookupA, if_neg hk]
      exact ih (List.nodup_cons.mp hm).2 h1

/-! ## Generic group-by fold -/

section GroupFold

variable {τ : Type} (sk : τ → Bool) (key : τ → String) (step : τ → α → α) (d : α)

/-- Shared shape of every per-trader accumulation loop in the file:
skip the elements selected by `sk`, fold the rest into a `defaultdict`. -/
def groupFold (l : List τ) (m0 : List (String × α)) : List (String × α) :=
  l.foldl (fun m x => if sk x then m else updAssoc (key x) (step x) d m) m0

theorem groupFold_cons (x : τ) (l : List τ) (m0 : List (String × α)) :
    groupFold sk key step d (x :: l) m0 =
      groupFold sk key step d l (if sk x then m0 else updAssoc (key x) (step x) d m0) := by
  simp only [groupFold, List.foldl_cons]

theorem groupFold_append (l1 l2 : List τ) (m0 : List (String × α)) :
    groupFold sk key step d (l1 ++ l2) m0 =
      groupFold sk key step d l2 (groupFold sk key step d l1 m0) := by
  simp [groupFold, List.foldl_append]

theorem nodup_keys_groupFold (l : List τ) (m0 : List (String × α))
    (hm : (m0.map Prod.fst).Nodup) :
    ((groupFold sk key step d l m0).map Prod.fst).Nodup := by
  induction l generalizing m0 with
  | nil => exact hm
  | cons x l ih =>
    rw [groupFold_cons]
    by_cases h : sk x
    · rw [if_pos h]; exact ih m0 hm
    · rw [if_neg h]
      exact ih _ (nodup_keys_setAssoc _ _ _ hm)

/-- The central description of the fold: the value looked up at `u` is the
fold of `step` over exactly the non-skipped elements keyed `u`, starting
from the default `d` (or from whatever `m0` already holds at `u`). -/
theorem lookup_groupFold (l : List τ) (m0 : List (String × α)) (u : String) :
    lookupA u (groupFold sk key step d l m0) =
      if (l.filter (fun x => !sk x && key x == u)).isEmpty then lookupA u m0
      else some ((l.filter (fun x => !sk x && key x == u)).foldl
        (fun a x => step x a) ((lookupA u m0).getD d)) := by
  induction l generalizing m0 with
  | nil => simp [groupFold]
  | cons x l ih =>
    rw [groupFold_cons]
    by_cases hsk : sk x
    · rw [if_pos hsk]
      have hfilt : (x :: l).filter (fun x => !sk x && key x == u) =
          l.filter (fun x => !sk x && key x == u) := by
        simp [List.filter_cons, hsk]
      rw [hfilt, ih]
    · rw [if_neg hsk]
      by_cases hk : key x = u
      · have hfilt : (x :: l).filter (fun x => !sk x && key x == u) =
            x :: l.filter (fun x => !sk x && key x == u) := by
          simp [List.filter_cons, hsk, hk]
        have hlook : lookupA u (updAssoc (key x) (step x) d m0) =
            some (step x ((lookupA u m0).getD d)) := by
          rw [lookup_updAssoc, if_pos hk]
        rw [hfilt, ih]
        by_cases he : (l.filter (fun x => !sk x && key x == u)).isEmpty
        · rw [List.isEmpty_iff] at he
          simp [he, hlook]
        · have he' : ¬ ((x :: l.filter (fun x => !sk x && key x == u)).isEmpty) := by simp
          simp only [List.isEmpty_iff] at he
          simp [he, he', hlook, List.foldl_cons]
      · have hfilt : (x :: l).filter (fun x => !sk x && key x == u) =
            l.filter (fun x => !sk x && key x == u) := by
          simp [List.filter_cons, hsk, hk]
        have hlook : lookupA u (updAssoc (key x) (step x) d m0) = lookupA u m0 := by
          rw [lookup_updAssoc, if_neg hk]
        rw [hfilt, ih, hlook]

/-- Every entry of the grouped map is the fold over the non-skipped
elements of its key, and at least one such element exists. -/
theorem mem_groupFold (l : List τ) (u : String) (a : α)
    (h : (u, a) ∈ groupFold sk key step d l []) :
    (l.filter (fun x => !sk x && key x == u)) ≠ [] ∧
      a = (l.filter (fun x => !sk x && key x == u)).foldl (fun a x => step x a) d := by
  have hnd : ((groupFold sk key step d l []).map Prod.fst).Nodup :=
    nodup_keys_groupFold sk key step d l [] (by simp)
  have hl := lookupA_of_mem u a _ hnd h
  rw [lookup_groupFold] at hl
  by_cases he : (l.filter (fun x => !sk x && key x == u)).isEmpty
  · rw [if_pos he] at hl
    simp [lookupA] at hl
  · rw [if_neg he] at hl
    rw [List.isEmpty_iff] at he
    refine ⟨he, ?_⟩
    have := Option.some.inj hl
    simpa [lookupA] using this.symm

end GroupFold

theorem mem_of_lookupA (u : String) (a : α) (m : List (String × α))
    (h : lookupA u m = some a) : (u, a) ∈ m := by
  induction m with
  | nil => simp [lookupA] at h
  | cons e rest ih =>
    obtain ⟨k2, v2⟩ := e
    by_cases hk : k2 = u
    · subst hk
      have h2 : v2 = a := by simpa [lookupA] using h
      subst h2
      exact List.mem_cons_self _ _
    · simp only [lookupA, if_neg hk] at h
      exact List.mem_cons_of_mem _ (ih h)

/-- A key with at least one non-skipped element appears in the grouped map,
carrying the fold over its elements. -/
theorem mem_keys_groupFold {τ : Type} (sk : τ → Bool) (key : τ → String)
    (step : τ → α → α) (d : α) (l : List τ) (u : String)
    (hne : (l.filter (fun x => !sk x && key x == u)) ≠ []) :
    (u, (l.filter (fun x => !sk x && key x == u)).foldl (fun a x => step x a) d) ∈
      groupFold sk key step d l [] := by
  have hl := lookup_groupFold sk key step d l [] u
  rw [if_neg (by simpa [List.isEmpty_iff] using hne)] at hl
  simp only [lookupA, Option.getD_none] at hl
  exact mem_of_lookupA _ _ _ hl

/-! ## Skipping inside a loop versus filtering first -/

/-! ## Skipping inside a loop versus filtering first -/

/-- A grouped fold does not change when the skipped elements are removed
from the input first. -/
theorem groupFold_filter {τ : Type} (sk : τ → Bool) (key : τ → String)
    (step : τ → α → α) (d : α) (l : List τ) :
    ∀ (m0 : List (String × α)),
      groupFold sk key step d (l.filter (fun x => !sk x)) m0 = groupFold sk key step d l m0 := by
  induction l with
  | nil => intro m0; rfl
  | cons x l ih =>
    intro m0
    by_cases h : sk x
    · rw [List.filter_cons, if_neg (by simp [h]), ih, groupFold_cons, if_pos h]
    · rw [List.filter_cons, if_pos (by simp [h]), groupFold_cons, if_neg h,
        groupFold_cons, if_neg h, ih]

/-! ## A stable sort commutes with filtering -/

section SortFilter

variable {τ : Type} (r : τ → τ → Prop) [DecidableRel r] [IsTotal τ r] [IsTrans τ r]

theorem filter_orderedInsert (p : τ → Bool) (a : τ) :
    ∀ (l : List τ), l.Sorted r →
      (List.orderedInsert r a l).filter p =
        if p a then List.orderedInsert r a (l.filter p) else l.filter p := by
  intro l
  induction l with
  | nil =>
    intro _
    by_cases hp : p a <;> simp [List.orderedInsert, hp]
  | cons b l ih =>
    intro hs
    by_cases hab : r a b
    · rw [List.orderedInsert_of_le r _ hab]
      by_cases hp : p a
      · rw [if_pos hp]
        by_cases hpb : p b
        · simp only [List.filter_cons, hp, hpb, if_pos]
          rw [List.orderedInsert_of_le r _ hab]
        · simp only [List.filter_cons, hp, hpb, Bool.false_eq_true, if_false, if_pos]
          cases hfl : l.filter p with
          | nil => simp [List.orderedInsert]
          | cons c m =>
            have hc : c ∈ l.filter p := by rw [hfl]; exact List.mem_cons_self _ _
            have hcl : c ∈ l := List.mem_of_mem_filter hc
            have hbc : r b c := List.rel_of_sorted_cons hs c hcl
            have hac : r a c := IsTrans.trans _ _ _ hab hbc
            rw [List.orderedInsert_of_le r _ hac]
      · rw [if_neg hp]
        simp [List.filter_cons, hp]
    · have hrec := ih (List.Sorted.of_cons hs)
      rw [List.orderedInsert, if_neg hab]
      by_cases hp : p a
      · rw [if_pos hp]
        by_cases hpb : p b
        · simp only [List.filter_cons, hpb, if_pos]
          rw [List.orderedInsert, if_neg hab, hrec, if_pos hp]
        · simp only [List.filter_cons, hpb, Bool.false_eq_true, if_false]
          rw [hrec, if_pos hp]
      · rw [if_neg hp]
        by_cases hpb : p b
        · simp only [List.filter_cons, hpb, if_pos]
          rw [hrec, if_neg hp]
        · simp only [List.filter_cons, hpb, Bool.false_eq_true, if_false]
          rw [hrec, if_neg hp]

theorem filter_insertionSort (p : τ → Bool) (l : List τ) :
    (List.insertionSort r l).filter p = List.insertionSort r (l.filter p) := by
  induction l with
  | nil => rfl
  | cons a l ih =>
    rw [List.insertionSort,
      filter_orderedInsert r p a _ (List.sorted_insertionSort r l), List.filter_cons]
    by_cases hp : p a
    · rw [if_pos hp, if_pos hp, ih, List.insertionSort]
    · rw [if_neg hp, if_neg hp, ih]

end SortFilter

/-! ## The analyzer loops are grouped folds -/

theorem traderPositions_eq (trades : List Trade) :
    traderPositions trades =
      groupFold (fun t => t.is_redemption) (fun t => t.user) pnlStep {} trades [] := rfl

theorem timingMap_eq (q1 q3 : ℕ) (indexed : List (ℕ × Trade)) :
    timingMap q1 q3 indexed =
      groupFold (fun it => it.2.is_redemption) (fun it => it.2.user)
        (timingStep q1 q3) {} indexed [] := rfl

theorem traderHistory_eq (trades : List Trade) :
    traderHistory trades =
      groupFold (fun t => t.is_redemption) (fun t => t.user)
        (fun t h => h ++ [histOf t]) [] (List.insertionSort tsLE trades) [] := rfl

theorem impactMap_eq (trades : List Trade) :
    impactMap trades =
      groupFold (fun t => t.is_redemption) (fun t => t.user) impactStep {} trades [] := rfl

theorem traderStats_eq (trades : List Trade) :
    traderStats trades =
      groupFold (fun t => t.is_redemption) (fun t => t.user) statsStep {} trades [] := rfl

/-- The non-redemption trades of trader `u`, in input order. -/
def tradesOf (u : String) (trades : List Trade) : List Trade :=
  trades.filter (fun t => !t.is_redemption && t.user == u)

theorem mem_traderPositions (trades : List Trade) (u : String) (p : TraderPos)
    (h : (u, p) ∈ traderPositions trades) :
    tradesOf u trades ≠ [] ∧
      p = (tradesOf u trades).foldl (fun a t => pnlStep t a) {} := by
  rw [traderPositions_eq] at h
  exact mem_groupFold _ _ _ _ _ _ _ h

/-! ## Field equations for the position fold -/

/-- Implied YES shares of a single trade (line 56). -/
def yesSharesOf (t : Trade) : ℚ :=
  if t.prob_before / 100 > 0 then t.amount / (t.prob_before / 100) else 0

/-- Implied NO shares of a single trade (line 60). -/
def noSharesOf (t : Trade) : ℚ :=
  if t.prob_before / 100 < 1 then t.amount / (1 - t.prob_before / 100) else 0

theorem pnlStep_yes_shares (t : Trade) (p : TraderPos) :
    (pnlStep t p).yes_shares =
      p.yes_shares + (if t.outcome == "YES" then yesSharesOf t else 0) := by
  by_cases h : t.outcome = "YES" <;> simp [pnlStep, yesSharesOf, h]

theorem pnlStep_no_shares (t : Trade) (p : TraderPos) :
    (pnlStep t p).no_shares =
      p.no_shares + (if t.outcome == "YES" then 0 else noSharesOf t) := by
  by_cases h : t.outcome = "YES" <;> simp [pnlStep, noSharesOf, h]

theorem pnlStep_yes_cost (t : Trade) (p : TraderPos) :
    (pnlStep t p).yes_cost =
      p.yes_cost + (if t.outcome == "YES" then t.amount else 0) := by
  by_cases h : t.outcome = "YES" <;> simp [pnlStep, h]

theorem pnlStep_no_cost (t : Trade) (p : TraderPos) :
    (pnlStep t p).no_cost =
      p.no_cost + (if t.outcome == "YES" then 0 else t.amount) := by
  by_cases h : t.outcome = "YES" <;> simp [pnlStep, h]

theorem pnlStep_trades (t : Trade) (p : TraderPos) :
    (pnlStep t p).trades = p.trades ++ [t] := by
  by_cases h : t.outcome = "YES" <;> simp [pnlStep, h]

/-- Generic accumulation lemma: if a step adds `add x` to a `ℚ`-valued field,
the fold adds the sum of the addends. -/
theorem foldl_field_sum {σ τ : Type} (field : σ → ℚ) (step : τ → σ → σ) (add : τ → ℚ)
    (hstep : ∀ t p, field (step t p) = field p + add t) (ts : List τ) :
    ∀ (p0 : σ), field (ts.foldl (fun a t => step t a) p0) = field p0 + (ts.map add).sum := by
  induction ts with
  | nil => intro p0; simp
  | cons t ts ih =>
    intro p0
    rw [List.foldl_cons, ih, hstep, List.map_cons, List.sum_cons, add_assoc]

/-- Summing addends that vanish off a side collapses to that side. -/
theorem sum_map_ite_eq_sum_filter {τ : Type} (c : τ → Bool) (f : τ → ℚ) (ts : List τ) :
    (ts.map (fun t => if c t then f t else 0)).sum = ((ts.filter c).map f).sum := by
  induction ts with
  | nil => rfl
  | cons t ts ih =>
    by_cases h : c t <;> simp [List.filter_cons, h, ih]

theorem sum_map_ite_not_eq_sum_filter {τ : Type} (c : τ → Bool) (f : τ → ℚ) (ts : List τ) :
    (ts.map (fun t => if c t then 0 else f t)).sum = ((ts.filter (fun t => !c t)).map f).sum := by
  induction ts with
  | nil => rfl
  | cons t ts ih =>
    by_cases h : c t <;> simp [List.filter_cons, h, ih]

/-! ## Claim C1 -/

/-- What C1 asserts of one output row of the Position Reconstructor. -/
def PnlRowSpec (trades : List Trade) (ref : ℚ) (r : PnlRecord) : Prop :=
  ∃ u pos, (u, pos) ∈ traderPositions trades ∧
    pos.yes_shares =
      (((tradesOf u trades).filter (fun t => t.outcome == "YES")).map yesSharesOf).sum ∧
    pos.no_shares =
      (((tradesOf u trades).filter (fun t => !(t.outcome == "YES"))).map noSharesOf).sum ∧
    pos.yes_cost =
      (((tradesOf u trades).filter (fun t => t.outcome == "YES")).map (fun t => t.amount)).sum ∧
    pos.no_cost =
      (((tradesOf u trades).filter (fun t => !(t.outcome == "YES"))).map (fun t => t.amount)).sum ∧
    r = pnlRecord ref (u, pos) ∧
    r.estimated_pnl =
      round2 ((pos.yes_shares * ref - pos.yes_cost) + (pos.no_shares * (1 - ref) - pos.no_cost)) ∧
    r.roi_pct =
      round1 (if pos.yes_cost + pos.no_cost > 0 then
          ((pos.yes_shares * ref - pos.yes_cost) + (pos.no_shares * (1 - ref) - pos.no_cost)) /
            (pos.yes_cost + pos.no_cost) * 100
        else 0)

/-- The C1 example trade: 100 spent on YES at `prob_before = 0.25`
(raw scale 25). -/
def c1Trade : Trade :=
  { user := "alice", amount := 100, outcome := "YES", prob_before := 25, prob_after := 26,
    timestamp := 1, date := "day1", is_redemption := false }

/-- The row C1 predicts for `c1Trade` at reference probability `0.50`:
400 shares, `yes_value = 200`, `estimated_pnl = 100`, `roi_pct = 100.0`. -/
def c1Row : PnlRecord :=
  { user := "alice", yes_cost := 100, no_cost := 0, total_cost := 100, yes_value := 200,
    no_value := 0, estimated_pnl := 100, roi_pct := 100, trade_count := 1, position := "LONG" }

/-- C1: the Position Reconstructor computes, per trader, implied shares
`amount / prob_before` (YES, guarded by `prob_before > 0`) and
`amount / (1 - prob_before)` (NO, guarded by `prob_before < 1`) with
probabilities on the normalized scale, accumulates per-side costs, values
positions at the reference probability, and sets
`estimated_pnl = (yes_value - yes_cost) + (no_value - no_cost)` and
`roi_pct = estimated_pnl / total_cost * 100` when `total_cost > 0`, else 0;
a trader spending 100 on YES at `prob_before = 0.25` holds 400 shares and at
reference 0.50 has `estimated_pnl = 100` and `roi_pct = 100.0`. -/
theorem C1_position_reconstructor :
    (∀ (trades : List Trade) (ref : ℚ) (r : PnlRecord),
      r ∈ estimate_pnl trades ref → PnlRowSpec trades ref r) ∧
    estimate_pnl [c1Trade] (1/2) = [c1Row] := by
  constructor
  · intro trades ref r hr
    unfold estimate_pnl at hr
    rw [List.mem_insertionSort] at hr
    obtain ⟨e, he, hre⟩ := List.mem_map.mp hr
    obtain ⟨u, pos⟩ := e
    obtain ⟨hne, hpos⟩ := mem_traderPositions trades u pos he
    refine ⟨u, pos, he, ?_, ?_, ?_, ?_, hre.symm, ?_, ?_⟩
    · rw [hpos, foldl_field_sum (fun p => p.yes_shares) pnlStep _ pnlStep_yes_shares,
        sum_map_ite_eq_sum_filter]
      simp [tradesOf]
    · rw [hpos, foldl_field_sum (fun p => p.no_shares) pnlStep _ pnlStep_no_shares,
        sum_map_ite_not_eq_sum_filter]
      simp [tradesOf]
    · rw [hpos, foldl_field_sum (fun p => p.yes_cost) pnlStep _ pnlStep_yes_cost,
        sum_map_ite_eq_sum_filter]
      simp [tradesOf]
    · rw [hpos, foldl_field_sum (fun p => p.no_cost) pnlStep _ pnlStep_no_cost,
        sum_map_ite_not_eq_sum_filter]
      simp [tradesOf]
    · rw [← hre]
      simp [pnlRecord]
    · rw [← hre]
      simp [pnlRecord]
  · norm_num [estimate_pnl, traderPositions, c1Trade, c1Row, groupFold, updAssoc, lookupA,
      setAssoc, pnlStep, pnlRecord, round2, round1, roundHalfEven, List.insertionSort,
      List.orderedInsert]

/-- Witness for C1: the example trade satisfies the row description. -/
theorem C1_position_reconstructor_witness : PnlRowSpec [c1Trade] (1/2) c1Row :=
  C1_position_reconstructor.1 [c1Trade] (1/2) c1Row (by
    rw [C1_position_reconstructor.2]
    exact List.mem_singleton.mpr rfl)

/-! ## Claim C2 -/

theorem timingStep_early (q1 q3 : ℕ) (it : ℕ × Trade) (a : TimingAcc) :
    (timingStep q1 q3 it a).early_trades =
      a.early_trades + (if it.1 < q1 then 1 else 0) := by
  by_cases h1 : it.1 < q1
  · simp [timingStep, h1]
  · by_cases h3 : it.1 < q3 <;> simp [timingStep, h1, h3]

theorem timingStep_late (q1 q3 : ℕ) (hq : q1 ≤ q3) (it : ℕ × Trade) (a : TimingAcc) :
    (timingStep q1 q3 it a).late_trades =
      a.late_trades + (if q3 ≤ it.1 then 1 else 0) := by
  by_cases h1 : it.1 < q1
  · have : ¬ q3 ≤ it.1 := by omega
    simp [timingStep, h1, this]
  · by_cases h3 : it.1 < q3
    · have : ¬ q3 ≤ it.1 := by omega
      simp [timingStep, h1, h3, this]
    · have : q3 ≤ it.1 := by omega
      simp [timingStep, h1, h3, this]

/-- Counting analogue of `foldl_field_sum` for `ℕ`-valued counters. -/
theorem foldl_field_count {σ τ : Type} (field : σ → ℕ) (step : τ → σ → σ) (c : τ → Bool)
    (hstep : ∀ t p, field (step t p) = field p + (if c t then 1 else 0)) (ts : List τ) :
    ∀ (s0 : σ), field (ts.foldl (fun a t => step t a) s0) = field s0 + ts.countP c := by
  induction ts with
  | nil => intro s0; simp
  | cons t ts ih =>
    intro s0
    rw [List.foldl_cons, ih, hstep, List.countP_cons]
    by_cases h : c t <;> simp [h] <;> omega

theorem mem_timingMap (q1 q3 : ℕ) (indexed : List (ℕ × Trade)) (u : String) (a : TimingAcc)
    (h : (u, a) ∈ timingMap q1 q3 indexed) :
    a = (indexed.filter (fun it => !it.2.is_redemption && it.2.user == u)).foldl
        (fun a it => timingStep q1 q3 it a) {} := by
  rw [timingMap_eq] at h
  exact (mem_groupFold _ _ _ _ _ _ _ h).2

/-- What C2 asserts of one output row of the Timing Analyzer. -/
def TimingRowSpec (trades : List Trade) (r : TimingRecord) : Prop :=
  r.early_trades = (List.insertionSort tsLE trades).enum.countP
      (fun it => decide (it.1 < (List.insertionSort tsLE trades).length / 4) &&
        (!it.2.is_redemption && it.2.user == r.user)) ∧
  r.late_trades = (List.insertionSort tsLE trades).enum.countP
      (fun it => decide ((List.insertionSort tsLE trades).length * 3 / 4 ≤ it.1) &&
        (!it.2.is_redemption && it.2.user == r.user)) ∧
  r.timing_type =
    (if r.early_trades > r.late_trades then "EARLY"
     else if r.late_trades > r.early_trades then "LATE" else "SPREAD")

/-- A 12-trade collection: trader `a` occupies rank indices 0,1,2, trader
`b` indices 9,10,11, trader `d` the middle. -/
def mkTrade (u : String) (ts : ℚ) : Trade :=
  { user := u, amount := 10, outcome := "YES", prob_before := 50, prob_after := 50,
    timestamp := ts, date := "d", is_redemption := false }

def c2TradesA : List Trade :=
  [mkTrade "a" 0, mkTrade "a" 1, mkTrade "a" 2, mkTrade "d" 3, mkTrade "d" 4, mkTrade "d" 5,
    mkTrade "d" 6, mkTrade "d" 7, mkTrade "d" 8, mkTrade "b" 9, mkTrade "b" 10, mkTrade "b" 11]

/-- A 12-trade collection where trader `c` holds rank indices 0 and 11. -/
def c2TradesB : List Trade :=
  [mkTrade "c" 0, mkTrade "e" 1, mkTrade "e" 2, mkTrade "e" 3, mkTrade "e" 4, mkTrade "e" 5,
    mkTrade "e" 6, mkTrade "e" 7, mkTrade "e" 8, mkTrade "e" 9, mkTrade "e" 10, mkTrade "c" 11]

/-- C2: with cutoffs `q1 = total // 4` and `q3 = total * 3 // 4`, the Timing
Analyzer counts the trades of a trader at rank index `< q1` as early and `>= q3`
as late, and labels EARLY when `early > late`, LATE when `late > early`,
SPREAD otherwise; for 12 trades (`q1 = 3`, `q3 = 9`) a trader at indices
0,1,2 is EARLY, one at 9,10,11 is LATE, one at 0 and 11 is SPREAD. -/
theorem C2_timing_analyzer :
    (∀ (trades : List Trade) (r : TimingRecord),
      r ∈ analyze_timing trades → TimingRowSpec trades r) ∧
    ((analyze_timing c2TradesA).map (fun r => (r.user, r.timing_type)) =
      [("a", "EARLY"), ("d", "SPREAD"), ("b", "LATE")]) ∧
    ((analyze_timing c2TradesB).map (fun r => (r.user, r.timing_type)) =
      [("c", "SPREAD"), ("e", "SPREAD")]) := by
  refine ⟨?_, ?_, ?_⟩
  · intro trades r hr
    unfold analyze_timing at hr
    by_cases hemp : trades = []
    · simp [hemp] at hr
    · rw [if_neg hemp] at hr
      obtain ⟨e, he, hre⟩ := List.mem_map.mp hr
      obtain ⟨u, acc⟩ := e
      have hacc := mem_timingMap _ _ _ u acc he
      have hq : (List.insertionSort tsLE trades).length / 4 ≤
          (List.insertionSort tsLE trades).length * 3 / 4 := by
        have h1 : (List.insertionSort tsLE trades).length ≤
            (List.insertionSort tsLE trades).length * 3 := by omega
        omega
      have huser : r.user = u := by rw [← hre]; rfl
      refine ⟨?_, ?_, ?_⟩
      · have hcnt := foldl_field_count (fun a => a.early_trades) (timingStep
          ((List.insertionSort tsLE trades).length / 4)
          ((List.insertionSort tsLE trades).length * 3 / 4))
          (fun it => decide (it.1 < (List.insertionSort tsLE trades).length / 4))
          (by intro t p; simpa using timingStep_early _ _ t p)
          ((List.insertionSort tsLE trades).enum.filter
            (fun it => !it.2.is_redemption && it.2.user == u)) ({} : TimingAcc)
        have hre2 : r.early_trades = acc.early_trades := by rw [← hre]; rfl
        rw [hre2, hacc, hcnt, List.countP_filter, huser]
        simp
      · have hcnt := foldl_field_count (fun a => a.late_trades) (timingStep
          ((List.insertionSort tsLE trades).length / 4)
          ((List.insertionSort tsLE trades).length * 3 / 4))
          (fun it => decide ((List.insertionSort tsLE trades).length * 3 / 4 ≤ it.1))
          (by intro t p; simpa using timingStep_late _ _ hq t p)
          ((List.insertionSort tsLE trades).enum.filter
            (fun it => !it.2.is_redemption && it.2.user == u)) ({} : TimingAcc)
        have hre2 : r.late_trades = acc.late_trades := by rw [← hre]; rfl
        rw [hre2, hacc, hcnt, List.countP_filter, huser]
        simp
      · rw [← hre]
        simp [timingRecord]
  · decide
  · decide

/-- Witness for C2: a row of the 12-trade example satisfies the row spec. -/
theorem C2_timing_analyzer_witness :
    ∃ r ∈ analyze_timing c2TradesA, TimingRowSpec c2TradesA r := by
  have h : (analyze_timing c2TradesA) ≠ [] := by
    intro hh
    have := C2_timing_analyzer.2.1
    rw [hh] at this
    simp at this
  obtain ⟨r, hr⟩ := List.exists_mem_of_ne_nil _ h
  exact ⟨r, hr, C2_timing_analyzer.1 c2TradesA r hr⟩

/-! ## Claim C3 -/

theorem foldl_append_singleton {τ β : Type} (f : τ → β) (ts : List τ) :
    ∀ (h0 : List β), ts.foldl (fun h t => h ++ [f t]) h0 = h0 ++ ts.map f := by
  induction ts with
  | nil => intro h0; simp
  | cons t ts ih =>
    intro h0
    rw [List.foldl_cons, ih, List.map_cons]
    simp

theorem mem_traderHistory (trades : List Trade) (u : String) (hist : List HistEntry)
    (h : (u, hist) ∈ traderHistory trades) :
    hist = ((List.insertionSort tsLE trades).filter
      (fun t => !t.is_redemption && t.user == u)).map histOf := by
  rw [traderHistory_eq] at h
  have h2 := (mem_groupFold _ _ _ _ _ _ _ h).2
  rw [h2]
  exact foldl_append_singleton histOf _ []

/-- What C3 asserts of one output row of the Position-Flip Detector. -/
def FlipRowSpec (trades : List Trade) (r : FlipRecord) : Prop :=
  ∃ hist, (r.user, hist) ∈ traderHistory trades ∧ 2 ≤ hist.length ∧
    hist = ((List.insertionSort tsLE trades).filter
      (fun t => !t.is_redemption && t.user == r.user)).map histOf ∧
    r.flips = countFlips hist ∧
    r.is_flipper = decide (2 ≤ r.flips)

theorem flipRowSpec_of_mem (trades : List Trade) (r : FlipRecord)
    (hr : r ∈ analyze_position_changes trades) : FlipRowSpec trades r := by
  unfold analyze_position_changes at hr
  rw [List.mem_insertionSort] at hr
  obtain ⟨e, he, hre⟩ := List.mem_map.mp hr
  obtain ⟨u, hist⟩ := e
  rw [List.mem_filter] at he
  obtain ⟨hmem, hlen⟩ := he
  have huser : r.user = u := by rw [← hre]; rfl
  refine ⟨hist, ?_, by simpa using hlen, ?_, ?_, ?_⟩
  · rw [huser]; exact hmem
  · rw [huser]; exact mem_traderHistory trades u hist hmem
  · rw [← hre]; rfl
  · rw [← hre]; rfl

/-- Trade constructor for the outcome-sequence examples. -/
def mkOutcomeTrade (u o : String) (ts : ℚ) : Trade :=
  { user := u, amount := 10, outcome := o, prob_before := 50, prob_after := 50,
    timestamp := ts, date := "d", is_redemption := false }

/-- Outcome sequence YES, NO, YES, NO for one trader. -/
def c3Alternating : List Trade :=
  [mkOutcomeTrade "f" "YES" 0, mkOutcomeTrade "f" "NO" 1,
    mkOutcomeTrade "f" "YES" 2, mkOutcomeTrade "f" "NO" 3]

/-- Outcome sequence YES, YES, YES for one trader. -/
def c3Constant : List Trade :=
  [mkOutcomeTrade "s" "YES" 0, mkOutcomeTrade "s" "YES" 1, mkOutcomeTrade "s" "YES" 2]

/-- C3: the Position-Flip Detector walks each trader with at least 2
non-redemption trades along their timestamp-sorted trades, counts exactly
the outcome changes against `last_direction`, sets `is_flipper` iff
`flips >= 2`, and omits traders with fewer than 2 non-redemption trades;
YES,NO,YES,NO yields flips 3 and is_flipper true, YES,YES,YES yields flips
0 and is_flipper false. -/
theorem C3_flip_detector :
    (∀ (trades : List Trade) (r : FlipRecord),
      r ∈ analyze_position_changes trades → FlipRowSpec trades r) ∧
    (∀ (trades : List Trade) (u : String),
      (trades.filter (fun t => !t.is_redemption && t.user == u)).length < 2 →
      ∀ r ∈ analyze_position_changes trades, r.user ≠ u) ∧
    ((analyze_position_changes c3Alternating).map (fun r => (r.user, r.flips, r.is_flipper)) =
      [("f", 3, true)]) ∧
    ((analyze_position_changes c3Constant).map (fun r => (r.user, r.flips, r.is_flipper)) =
      [("s", 0, false)]) := by
  refine ⟨flipRowSpec_of_mem, ?_, by decide, by decide⟩
  intro trades u hshort r hr hru
  obtain ⟨hist, hmem, hlen, hchar, _, _⟩ := flipRowSpec_of_mem trades r hr
  rw [hru] at hchar
  have hperm : List.Perm
      ((List.insertionSort tsLE trades).filter (fun t => !t.is_redemption && t.user == u))
      (trades.filter (fun t => !t.is_redemption && t.user == u)) :=
    (List.perm_insertionSort tsLE trades).filter _
  have hlen2 : hist.length =
      (trades.filter (fun t => !t.is_redemption && t.user == u)).length := by
    rw [hchar, List.length_map, hperm.length_eq]
  omega

/-- Witness for C3: the alternating-trader row satisfies the row spec. -/
theorem C3_flip_detector_witness :
    ∃ r ∈ analyze_position_changes c3Alternating, FlipRowSpec c3Alternating r := by
  have h : (analyze_position_changes c3Alternating) ≠ [] := by
    intro hh
    have := C3_flip_detector.2.2.1
    rw [hh] at this
    simp at this
  obtain ⟨r, hr⟩ := List.exists_mem_of_ne_nil _ h
  exact ⟨r, hr, C3_flip_detector.1 c3Alternating r hr⟩

/-! ## Claim C4 -/

theorem traderTypes_props (v wt : ℚ) (tc : ℕ) (yp roi : ℚ) :
    ¬("BULL" ∈ traderTypes v wt tc yp roi ∧ "BEAR" ∈ traderTypes v wt tc yp roi) ∧
    ¬("WINNER" ∈ traderTypes v wt tc yp roi ∧ "LOSER" ∈ traderTypes v wt tc yp roi) ∧
    ("RETAIL" ∈ traderTypes v wt tc yp roi ↔ traderTypes v wt tc yp roi = ["RETAIL"]) := by
  by_cases h1 : v ≥ wt <;> by_cases h2 : tc ≥ 20 <;> by_cases h3 : yp ≥ 80 <;>
    by_cases h4 : yp ≤ 20 <;> by_cases h5 : roi > 50 <;> by_cases h6 : roi < -30 <;>
    simp [traderTypes, h1, h2, h3, h4, h5, h6]

/-- C4: per trader, the classifier emits at most one of BULL/BEAR
(if/else-if on `yes_pct`), at most one of WINNER/LOSER (if/else-if on
`roi_pct`), and RETAIL exactly when nothing else applies; a trader below
the whale threshold with 5 trades, `yes_pct = 50` and `roi_pct = 10` gets
exactly ["RETAIL"]. -/
theorem C4_trader_classifier :
    (∀ (trades : List Trade) (pnl_data : List PnlRecord) (r : ClassifyRecord),
      r ∈ classify_traders trades pnl_data →
        ¬("BULL" ∈ r.types ∧ "BEAR" ∈ r.types) ∧
        ¬("WINNER" ∈ r.types ∧ "LOSER" ∈ r.types) ∧
        ("RETAIL" ∈ r.types ↔ r.types = ["RETAIL"])) ∧
    (∀ (v wt : ℚ), v < wt → traderTypes v wt 5 50 10 = ["RETAIL"]) := by
  constructor
  · intro trades pnl_data r hr
    unfold classify_traders at hr
    rw [List.mem_insertionSort] at hr
    obtain ⟨e, _, hre⟩ := List.mem_map.mp hr
    have htypes : r.types = traderTypes e.2.volume (whaleThreshold trades pnl_data) e.2.trades
        e.2.yes_pct (((pnlLookup pnl_data e.1).map (fun p => p.roi_pct)).getD 0) := by
      rw [← hre]; rfl
    rw [htypes]
    exact traderTypes_props _ _ _ _ _
  · intro v wt h
    have h1 : ¬ v ≥ wt := not_le.mpr h
    have h2 : ¬ (5 : ℕ) ≥ 20 := by omega
    have h3 : ¬ (50 : ℚ) ≥ 80 := by norm_num
    have h4 : ¬ (50 : ℚ) ≤ 20 := by norm_num
    have h5 : ¬ (10 : ℚ) > 50 := by norm_num
    have h6 : ¬ (10 : ℚ) < -30 := by norm_num
    simp [traderTypes, h1, h2, h3, h4, h5, h6]

/-- Witness for C4: both parts applied at concrete inputs. -/
theorem C4_trader_classifier_witness :
    (∃ r ∈ classify_traders [c1Trade] [],
      ¬("BULL" ∈ r.types ∧ "BEAR" ∈ r.types) ∧
      ¬("WINNER" ∈ r.types ∧ "LOSER" ∈ r.types) ∧
      ("RETAIL" ∈ r.types ↔ r.types = ["RETAIL"])) ∧
    traderTypes 0 1 5 50 10 = ["RETAIL"] := by
  constructor
  · have h : classify_traders [c1Trade] [] ≠ [] := by decide
    obtain ⟨r, hr⟩ := List.exists_mem_of_ne_nil _ h
    exact ⟨r, hr, C4_trader_classifier.1 [c1Trade] [] r hr⟩
  · exact C4_trader_classifier.2 0 1 (by norm_num)

/-! ## Claim C5 -/

theorem traderPositions_filter (trades : List Trade) :
    traderPositions (trades.filter (fun t => !t.is_redemption)) = traderPositions trades := by
  rw [traderPositions_eq, traderPositions_eq]
  exact groupFold_filter _ _ _ _ trades []

theorem impactMap_filter (trades : List Trade) :
    impactMap (trades.filter (fun t => !t.is_redemption)) = impactMap trades := by
  rw [impactMap_eq, impactMap_eq]
  exact groupFold_filter _ _ _ _ trades []

theorem traderStats_filter (trades : List Trade) :
    traderStats (trades.filter (fun t => !t.is_redemption)) = traderStats trades := by
  rw [traderStats_eq, traderStats_eq]
  exact groupFold_filter _ _ _ _ trades []

theorem traderHistory_filter (trades : List Trade) :
    traderHistory (trades.filter (fun t => !t.is_redemption)) = traderHistory trades := by
  rw [traderHistory_eq, traderHistory_eq,
    ← filter_insertionSort tsLE (fun t => !t.is_redemption) trades]
  exact groupFold_filter _ _ _ _ (List.insertionSort tsLE trades) []

/-- A redemption-only record plus four ordinary trades of one trader; used
to exhibit that `analyze_timing` is sensitive to redemption trades. -/
def c5Trades : List Trade :=
  [{ user := "r", amount := 10, outcome := "YES", prob_before := 50, prob_after := 50,
      timestamp := 0, date := "d", is_redemption := true },
    mkTrade "a" 1, mkTrade "a" 2, mkTrade "a" 3, mkTrade "a" 4]

/-- Counterexample to C5: removing the redemption trade changes the Timing
Analyzer output (the quartile cutoffs and rank indices shift, so trader
`a` gains an early trade). -/
theorem C5_counterexample :
    (analyze_timing c5Trades).map (fun r => (r.user, r.early_trades)) ≠
      (analyze_timing (c5Trades.filter (fun t => !t.is_redemption))).map
        (fun r => (r.user, r.early_trades)) := by decide

/-- C5 amended: redemption trades are excluded from the P&L, position-flip,
market-impact and classification analyses — their outputs are unchanged when
all `is_redemption` trades are removed — but not from the Timing Analyzer,
whose `total`, quartile cutoffs and rank indices range over the unfiltered
collection. -/
theorem C5_redemptions_excluded_amended :
    ∀ (trades : List Trade) (ref : ℚ) (pnl_data : List PnlRecord),
      estimate_pnl (trades.filter (fun t => !t.is_redemption)) ref = estimate_pnl trades ref ∧
      analyze_position_changes (trades.filter (fun t => !t.is_redemption)) =
        analyze_position_changes trades ∧
      analyze_market_impact (trades.filter (fun t => !t.is_redemption)) =
        analyze_market_impact trades ∧
      classify_traders (trades.filter (fun t => !t.is_redemption)) pnl_data =
        classify_traders trades pnl_data ∧
      classify_traders (trades.filter (fun t => !t.is_redemption))
          (estimate_pnl (trades.filter (fun t => !t.is_redemption)) ref) =
        classify_traders trades (estimate_pnl trades ref) := by
  intro trades ref pnl_data
  have hstats : ∀ (pd : List PnlRecord),
      traderStatsPct (trades.filter (fun t => !t.is_redemption)) pd =
        traderStatsPct trades pd := by
    intro pd
    unfold traderStatsPct
    rw [traderStats_filter]
  have hwhale : ∀ (pd : List PnlRecord),
      whaleThreshold (trades.filter (fun t => !t.is_redemption)) pd =
        whaleThreshold trades pd := by
    intro pd
    unfold whaleThreshold
    rw [hstats]
  have hpnl : ∀ (pd : List PnlRecord),
      classify_traders (trades.filter (fun t => !t.is_redemption)) pd =
        classify_traders trades pd := by
    intro pd
    unfold classify_traders
    rw [hstats, hwhale]
  refine ⟨?_, ?_, ?_, hpnl pnl_data, ?_⟩
  · unfold estimate_pnl
    rw [traderPositions_filter]
  · unfold analyze_position_changes
    rw [traderHistory_filter]
  · unfold analyze_market_impact
    rw [impactMap_filter]
  · rw [hpnl]
    unfold estimate_pnl
    rw [traderPositions_filter]

/-! ## Claim C6 -/

/-- Two trades whose normalized probabilities are (0.40, 0.45) and
(0.45, 0.30): on the 0-100 input scale, `prob_before`/`prob_after` are
40, 45 and 45, 30. -/
def c6Trades : List Trade :=
  [{ user := "m", amount := 10, outcome := "YES", prob_before := 40, prob_after := 45,
      timestamp := 1, date := "d", is_redemption := false },
    { user := "m", amount := 10, outcome := "YES", prob_before := 45, prob_after := 30,
      timestamp := 2, date := "d", is_redemption := false }]

/-- The row `analyze_market_impact` actually produces for `c6Trades`. -/
def c6Row : ImpactRecord :=
  { user := "m", total_impact_pct := 20, avg_impact_pct := 10, biggest_move_pct := 15,
    trade_count := 2 }

/-- Counterexample to C6: the Market-Impact Analyzer does not normalize to
[0,1]; on the scenario trades it reports 20 and 15 (raw percentage points),
not 0.20 and 0.15. -/
theorem C6_counterexample :
    ((analyze_market_impact c6Trades).map
      (fun r => (r.total_impact_pct, r.biggest_move_pct)) = [(20, 15)]) ∧
    ¬ ((analyze_market_impact c6Trades).map
      (fun r => (r.total_impact_pct, r.biggest_move_pct)) = [(1/5, 3/20)]) := by
  have h : analyze_market_impact c6Trades = [c6Row] := by
    norm_num [analyze_market_impact, impactMap, c6Trades, c6Row, updAssoc, lookupA, setAssoc,
      impactStep, impactRecord, round2, roundHalfEven, List.insertionSort, List.orderedInsert]
  rw [h]
  norm_num [c6Row]

/-- C6 amended: the 0-100 to [0,1] normalization happens only in the
Position Reconstructor, which divides `prob_before` by 100 before pricing
shares; the Market-Impact Analyzer accumulates `|prob_after - prob_before|`
on the raw input scale, so the scenario trades yield `total_impact_pct = 20`
and `biggest_move = 15` in percentage points. -/
theorem C6_normalization_amended :
    (∀ (t : Trade) (p : TraderPos), t.outcome = "YES" → 0 < t.prob_before / 100 →
      (pnlStep t p).yes_shares = p.yes_shares + t.amount / (t.prob_before / 100)) ∧
    (∀ (t : Trade) (p : TraderPos), t.outcome ≠ "YES" → t.prob_before / 100 < 1 →
      (pnlStep t p).no_shares = p.no_shares + t.amount / (1 - t.prob_before / 100)) ∧
    (∀ (t : Trade) (a : ImpactAcc),
      (impactStep t a).total_price_impact =
        a.total_price_impact + |t.prob_after - t.prob_before|) ∧
    analyze_market_impact c6Trades = [c6Row] := by
  refine ⟨?_, ?_, fun t a => rfl, ?_⟩
  · intro t p h1 h2
    simp [pnlStep, h1, h2]
  · intro t p h1 h2
    simp [pnlStep, h1, h2]
  · norm_num [analyze_market_impact, impactMap, c6Trades, c6Row, updAssoc, lookupA, setAssoc,
      impactStep, impactRecord, round2, roundHalfEven, List.insertionSort, List.orderedInsert]

/-- Witness for C6 amended: the YES-share normalization at a concrete trade. -/
theorem C6_normalization_amended_witness :
    (pnlStep c1Trade {}).yes_shares =
      ({} : TraderPos).yes_shares + c1Trade.amount / (c1Trade.prob_before / 100) :=
  C6_normalization_amended.1 c1Trade {} rfl (by norm_num [c1Trade])

/-! ## Claim C7 -/

/-- A trade record as the loosely-typed dict the analyzers actually receive:
any required field may be absent.  `is_redemption` is read with `.get`, so
absence is simply falsy. -/
structure RawTrade where
  user : Option String
  amount : Option ℚ
  outcome : Option String
  prob_before : Option ℚ
  prob_after : Option ℚ
  timestamp : Option ℚ
  date : Option String
  is_redemption : Bool
deriving DecidableEq

/-- Python subscript `t[key]`: a missing key raises `KeyError`. -/
def getField (name : String) : Option β → Except String β
  | some v => Except.ok v
  | none => Except.error ("KeyError: " ++ name)

/-- The position accumulator over raw trades. -/
structure RawPos where
  yes_shares : ℚ := 0
  no_shares : ℚ := 0
  yes_cost : ℚ := 0
  no_cost : ℚ := 0
  trades : List RawTrade := []
deriving DecidableEq

/-- One loop iteration of `estimate_pnl` with the dict accesses explicit, in
source order: `user`, `amount`, `prob_before`, then `outcome`. -/
def pnlStepRaw (t : RawTrade) (m : List (String × RawPos)) :
    Except String (List (String × RawPos)) :=
  if t.is_redemption then Except.ok m else do
    let user ← getField ("user") t.user
    let amount ← getField ("amount") t.amount
    let pb ← getField ("prob_before") t.prob_before
    let prob := pb / 100
    let outcome ← getField ("outcome") t.outcome
    let p0 := (lookupA user m).getD {}
    let p2 :=
      if outcome = "YES" then
        let shares := if prob > 0 then amount / prob else 0
        { p0 with yes_shares := p0.yes_shares + shares, yes_cost := p0.yes_cost + amount }
      else
        let shares := if prob < 1 then amount / (1 - prob) else 0
        { p0 with no_shares := p0.no_shares + shares, no_cost := p0.no_cost + amount }
    Except.ok (setAssoc user { p2 with trades := p2.trades ++ [t] } m)

/-- Result-building part of `estimate_pnl` over raw positions (it touches no
raw field, so it cannot raise). -/
def pnlRecordRaw (current_prob : ℚ) (e : String × RawPos) : PnlRecord :=
  let pos := e.2
  let yes_value := pos.yes_shares * current_prob
  let yes_pnl := yes_value - pos.yes_cost
  let no_value := pos.no_shares * (1 - current_prob)
  let no_pnl := no_value - pos.no_cost
  let total_pnl := yes_pnl + no_pnl
  let total_cost := pos.yes_cost + pos.no_cost
  let roi := if total_cost > 0 then total_pnl / total_cost * 100 else 0
  { user := e.1
    yes_cost := round2 pos.yes_cost
    no_cost := round2 pos.no_cost
    total_cost := round2 total_cost
    yes_value := round2 yes_value
    no_value := round2 no_value
    estimated_pnl := round2 total_pnl
    roi_pct := round1 roi
    trade_count := pos.trades.length
    position := if pos.yes_cost > pos.no_cost then "LONG" else "SHORT" }

/-- The function `estimate_pnl` over raw records: the loop propagates the first
`KeyError`. -/
def estimate_pnlRaw (trades : List RawTrade) (current_prob : ℚ) :
    Except String (List PnlRecord) := do
  let m ← trades.foldlM (fun m t => pnlStepRaw t m) []
  Except.ok (List.insertionSort pnlGE (m.map (pnlRecordRaw current_prob)))

/-- A record with `user`, `amount` and probabilities present but no
`outcome`. -/
def c7Bad : RawTrade :=
  { user := some ("x"), amount := some 100, outcome := none, prob_before := some 25,
    prob_after := some 26, timestamp := some 1, date := some ("d"), is_redemption := false }

/-- Counterexample to C7: a record with a missing required field is not
skipped — the analyzer aborts with a `KeyError` — whereas on the collection
with the record removed it completes normally. -/
theorem C7_counterexample :
    estimate_pnlRaw [c7Bad] (1/2) = Except.error ("KeyError: outcome") ∧
    estimate_pnlRaw [] (1/2) = Except.ok [] := by
  constructor <;> rfl

/-- C7 amended: a Trade Record missing a field that an analyzer subscripts
(for example `outcome` in `estimate_pnl`) is not skipped: the analyzer
aborts the run with a `KeyError` for that field. -/
theorem C7_missing_field_aborts :
    ∀ (t : RawTrade) (u : String) (a pb : ℚ),
      t.user = some u → t.amount = some a → t.prob_before = some pb →
      t.outcome = none → t.is_redemption = false →
      ∀ (ref : ℚ), estimate_pnlRaw [t] ref = Except.error ("KeyError: outcome") := by
  intro t u a pb hu ha hp ho hr ref
  unfold estimate_pnlRaw
  simp [List.foldlM, pnlStepRaw, hu, ha, hp, ho, hr, getField, Bind.bind, Except.bind]

/-- Witness for C7 amended: the concrete malformed record aborts. -/
theorem C7_missing_field_aborts_witness :
    estimate_pnlRaw [c7Bad] (1/2) = Except.error ("KeyError: outcome") :=
  C7_missing_field_aborts c7Bad "x" 100 25 rfl rfl rfl rfl rfl (1/2)

/-! ## Claim C8 -/

/-- Python `/` with its failure mode explicit. -/
def cdiv (a b : ℚ) : Except String ℚ :=
  if b = 0 then Except.error ("ZeroDivisionError") else Except.ok (a / b)

theorem cdiv_ok (a b : ℚ) (h : b ≠ 0) : cdiv a b = Except.ok (a / b) := if_neg h

theorem foldlM_ok {τ β : Type} (F : β → τ → Except String β) (g : β → τ → β)
    (h : ∀ b t, F b t = Except.ok (g b t)) (l : List τ) :
    ∀ (b0 : β), l.foldlM F b0 = Except.ok (l.foldl g b0) := by
  induction l with
  | nil => intro b0; rfl
  | cons t l ih =>
    intro b0
    rw [List.foldlM_cons, h, List.foldl_cons]
    simpa [Bind.bind, Except.bind] using ih (g b0 t)

/-- The result-collection loop (`results.append(...)`) with failures
explicit. -/
def mapE {τ β : Type} (F : τ → Except String β) : List τ → Except String (List β)
  | [] => Except.ok []
  | t :: ts => do
    let b ← F t
    let bs ← mapE F ts
    Except.ok (b :: bs)

theorem mapE_ok {τ β : Type} (F : τ → Except String β) (g : τ → β) (l : List τ)
    (h : ∀ t ∈ l, F t = Except.ok (g t)) : mapE F l = Except.ok (l.map g) := by
  induction l with
  | nil => rfl
  | cons t ts ih =>
    rw [List.map_cons]
    have ht := h t (List.mem_cons_self _ _)
    have hts := ih (fun x hx => h x (List.mem_cons_of_mem _ hx))
    simp [mapE, ht, hts, Bind.bind, Except.bind]

/-- Step `pnlStep` with both guarded divisions checked. -/
def pnlStepE (t : Trade) (p : TraderPos) : Except String TraderPos := do
  let prob ← cdiv t.prob_before 100
  if t.outcome = "YES" then do
    let shares ← if prob > 0 then cdiv t.amount prob else Except.ok 0
    let p2 := { p with yes_shares := p.yes_shares + shares, yes_cost := p.yes_cost + t.amount }
    Except.ok { p2 with trades := p2.trades ++ [t] }
  else do
    let shares ← if prob < 1 then cdiv t.amount (1 - prob) else Except.ok 0
    let p2 := { p with no_shares := p.no_shares + shares, no_cost := p.no_cost + t.amount }
    Except.ok { p2 with trades := p2.trades ++ [t] }

theorem pnlStepE_ok (t : Trade) (p : TraderPos) : pnlStepE t p = Except.ok (pnlStep t p) := by
  unfold pnlStepE pnlStep
  rw [cdiv_ok _ _ (by norm_num : (100:ℚ) ≠ 0)]
  by_cases h : t.outcome = "YES"
  · by_cases hp : t.prob_before / 100 > 0
    · have hne : t.prob_before / 100 ≠ 0 := ne_of_gt hp
      simp [h, hp, cdiv, hne, Bind.bind, Except.bind]
    · simp [h, hp, Bind.bind, Except.bind]
  · by_cases hq : t.prob_before / 100 < 1
    · have hne : 1 - t.prob_before / 100 ≠ 0 := sub_ne_zero.mpr (ne_of_lt hq).symm
      simp [h, hq, cdiv, hne, Bind.bind, Except.bind]
    · simp [h, hq, Bind.bind, Except.bind]

/-- Row builder `pnlRecord` with the guarded ROI division checked. -/
def pnlRecordE (current_prob : ℚ) (e : String × TraderPos) : Except String PnlRecord := do
  let pos := e.2
  let yes_value := pos.yes_shares * current_prob
  let yes_pnl := yes_value - pos.yes_cost
  let no_value := pos.no_shares * (1 - current_prob)
  let no_pnl := no_value - pos.no_cost
  let total_pnl := yes_pnl + no_pnl
  let total_cost := pos.yes_cost + pos.no_cost
  let roi ← if total_cost > 0 then do
      let q ← cdiv total_pnl total_cost
      Except.ok (q * 100)
    else Except.ok 0
  Except.ok
    { user := e.1
      yes_cost := round2 pos.yes_cost
      no_cost := round2 pos.no_cost
      total_cost := round2 total_cost
      yes_value := round2 yes_value
      no_value := round2 no_value
      estimated_pnl := round2 total_pnl
      roi_pct := round1 roi
      trade_count := pos.trades.length
      position := if pos.yes_cost > pos.no_cost then "LONG" else "SHORT" }

theorem pnlRecordE_ok (current_prob : ℚ) (e : String × TraderPos) :
    pnlRecordE current_prob e = Except.ok (pnlRecord current_prob e) := by
  unfold pnlRecordE pnlRecord
  by_cases h : e.2.yes_cost + e.2.no_cost > 0
  · have hne : e.2.yes_cost + e.2.no_cost ≠ 0 := ne_of_gt h
    simp [h, cdiv, hne, Bind.bind, Except.bind]
  · simp [h, Bind.bind, Except.bind]

/-- The function `estimate_pnl` with every division checked. -/
def estimate_pnlE (trades : List Trade) (current_prob : ℚ) :
    Except String (List PnlRecord) := do
  let m ← trades.foldlM (fun m t =>
    if t.is_redemption then Except.ok m
    else do
      let p ← pnlStepE t ((lookupA t.user m).getD {})
      Except.ok (setAssoc t.user p m)) []
  let results ← mapE (pnlRecordE current_prob) m
  Except.ok (List.insertionSort pnlGE results)

theorem estimate_pnlE_ok (trades : List Trade) (current_prob : ℚ) :
    estimate_pnlE trades current_prob = Except.ok (estimate_pnl trades current_prob) := by
  unfold estimate_pnlE
  rw [foldlM_ok _ (fun m t => if t.is_redemption then m else updAssoc t.user (pnlStep t) {} m)
    (by
      intro m t
      by_cases hr : t.is_redemption
      · simp [hr]
      · simp [hr, pnlStepE_ok, updAssoc, Bind.bind, Except.bind]) trades []]
  simp only [Bind.bind, Except.bind]
  rw [mapE_ok (pnlRecordE current_prob) (pnlRecord current_prob) _
    (fun e _ => pnlRecordE_ok current_prob e)]
  rfl

/-- Row builder `timingRecord` with the `first_trade_pct` division checked (the only
unguarded division in the engine; it is reached only when the collection is
non-empty). -/
def timingRecordE (total_trades : ℕ) (e : String × TimingAcc) : Except String TimingRecord := do
  let d := e.2
  let pct ← cdiv (((d.first_trade_idx.getD 0 : ℕ) : ℚ)) ((total_trades : ℕ) : ℚ)
  Except.ok
    { user := e.1
      timing_type :=
        if d.early_trades > d.late_trades then "EARLY"
        else if d.late_trades > d.early_trades then "LATE" else "SPREAD"
      first_trade_pct := round1 (pct * 100)
      early_trades := d.early_trades
      mid_trades := d.mid_trades
      late_trades := d.late_trades }

theorem timingRecordE_ok (total_trades : ℕ) (h : total_trades ≠ 0) (e : String × TimingAcc) :
    timingRecordE total_trades e = Except.ok (timingRecord total_trades e) := by
  unfold timingRecordE timingRecord
  have hne : ((total_trades : ℕ) : ℚ) ≠ 0 := Nat.cast_ne_zero.mpr h
  simp [cdiv, hne, Bind.bind, Except.bind]

/-- The function `analyze_timing` with its division checked. -/
def analyze_timingE (trades : List Trade) : Except String (List TimingRecord) :=
  if trades = [] then Except.ok []
  else
    let sorted_trades := List.insertionSort tsLE trades
    let total_trades := sorted_trades.length
    let q1_cutoff := total_trades / 4
    let q3_cutoff := total_trades * 3 / 4
    mapE (timingRecordE total_trades) (timingMap q1_cutoff q3_cutoff sorted_trades.enum)

theorem analyze_timingE_ok (trades : List Trade) :
    analyze_timingE trades = Except.ok (analyze_timing trades) := by
  unfold analyze_timingE analyze_timing
  by_cases h : trades = []
  · simp [h]
  · rw [if_neg h, if_neg h]
    have hlen : (List.insertionSort tsLE trades).length ≠ 0 := by
      rw [List.length_insertionSort]
      exact fun hh => h (List.eq_nil_of_length_eq_zero hh)
    exact mapE_ok _ _ _ (fun e _ => timingRecordE_ok _ hlen e)

/-- Row builder `flipRecord` with both guarded average-entry divisions checked. -/
def flipRecordE (e : String × List HistEntry) : Except String FlipRecord := do
  let history := e.2
  let flips := countFlips history
  let yes_volume := ((history.filter (fun t => t.outcome = "YES")).map (fun t => t.amount)).sum
  let no_volume := ((history.filter (fun t => t.outcome = "NO")).map (fun t => t.amount)).sum
  let avg_yes_entry ←
    if yes_volume > 0 then
      cdiv (((history.filter (fun t => t.outcome = "YES")).map
        (fun t => t.prob * t.amount)).sum) yes_volume
    else Except.ok 0
  let avg_no_entry ←
    if no_volume > 0 then
      cdiv (((history.filter (fun t => t.outcome = "NO")).map
        (fun t => t.prob * t.amount)).sum) no_volume
    else Except.ok 0
  Except.ok
    { user := e.1
      trade_count := history.length
      flips := flips
      is_flipper := decide (flips ≥ 2)
      avg_yes_entry_prob := round1 avg_yes_entry
      avg_no_entry_prob := round1 avg_no_entry
      first_position := (history.headD dHist).outcome
      final_position := (history.getLastD dHist).outcome }

theorem flipRecordE_ok (e : String × List HistEntry) :
    flipRecordE e = Except.ok (flipRecord e) := by
  unfold flipRecordE flipRecord
  by_cases hy : ((e.2.filter (fun t => t.outcome = "YES")).map (fun t => t.amount)).sum > 0
  · have hyne := ne_of_gt hy
    by_cases hn : ((e.2.filter (fun t => t.outcome = "NO")).map (fun t => t.amount)).sum > 0
    · have hnne := ne_of_gt hn
      simp [hy, hn, cdiv, hyne, hnne, Bind.bind, Except.bind]
    · simp [hy, hn, cdiv, hyne, Bind.bind, Except.bind]
  · by_cases hn : ((e.2.filter (fun t => t.outcome = "NO")).map (fun t => t.amount)).sum > 0
    · have hnne := ne_of_gt hn
      simp [hy, hn, cdiv, hnne, Bind.bind, Except.bind]
    · simp [hy, hn, Bind.bind, Except.bind]

/-- The function `analyze_position_changes` with its divisions checked. -/
def analyze_position_changesE (trades : List Trade) : Except String (List FlipRecord) := do
  let results ← mapE flipRecordE ((traderHistory trades).filter (fun e => 2 ≤ e.2.length))
  Except.ok (List.insertionSort flipGE results)

theorem analyze_position_changesE_ok (trades : List Trade) :
    analyze_position_changesE trades = Except.ok (analyze_position_changes trades) := by
  unfold analyze_position_changesE analyze_position_changes
  rw [mapE_ok flipRecordE flipRecord _ (fun e _ => flipRecordE_ok e)]
  rfl

/-- Row builder `impactRecord` with the guarded average division checked. -/
def impactRecordE (e : String × ImpactAcc) : Except String ImpactRecord := do
  let d := e.2
  let avg_impact ← if d.trades > 0 then cdiv d.total_price_impact ((d.trades : ℕ) : ℚ)
    else Except.ok 0
  Except.ok
    { user := e.1
      total_impact_pct := round2 d.total_price_impact
      avg_impact_pct := round2 avg_impact
      biggest_move_pct := round2 d.biggest_move
      trade_count := d.trades }

theorem impactRecordE_ok (e : String × ImpactAcc) :
    impactRecordE e = Except.ok (impactRecord e) := by
  unfold impactRecordE impactRecord
  by_cases h : e.2.trades > 0
  · have hne : ((e.2.trades : ℕ) : ℚ) ≠ 0 := Nat.cast_ne_zero.mpr (Nat.pos_iff_ne_zero.mp h)
    simp [h, cdiv, hne, Bind.bind, Except.bind]
  · simp [h, Bind.bind, Except.bind]

/-- The function `analyze_market_impact` with its division checked. -/
def analyze_market_impactE (trades : List Trade) : Except String (List ImpactRecord) := do
  let results ← mapE impactRecordE (impactMap trades)
  Except.ok (List.insertionSort impactGE results)

theorem analyze_market_impactE_ok (trades : List Trade) :
    analyze_market_impactE trades = Except.ok (analyze_market_impact trades) := by
  unfold analyze_market_impactE analyze_market_impact
  rw [mapE_ok impactRecordE impactRecord _ (fun e _ => impactRecordE_ok e)]
  rfl

/-- The `yes_pct` pass of `classify_traders` with its guarded division
checked (the guard falls back to 50, not 0). -/
def traderStatsPctE (trades : List Trade) (pnl_data : List PnlRecord) :
    Except String (List (String × StatsAcc)) :=
  mapE (fun e => do
    let pnl := pnlLookup pnl_data e.1
    let yes_cost := (pnl.map (fun p => p.yes_cost)).getD 0
    let total := (pnl.map (fun p => p.total_cost)).getD 1
    let yp ← if total > 0 then do
        let q ← cdiv yes_cost total
        Except.ok (q * 100)
      else Except.ok 50
    Except.ok (e.1, { e.2 with yes_pct := yp })) (traderStats trades)

theorem traderStatsPctE_ok (trades : List Trade) (pnl_data : List PnlRecord) :
    traderStatsPctE trades pnl_data = Except.ok (traderStatsPct trades pnl_data) := by
  unfold traderStatsPctE traderStatsPct
  refine mapE_ok _ _ _ (fun e _ => ?_)
  by_cases h : ((pnlLookup pnl_data e.1).map (fun p => p.total_cost)).getD 1 > 0
  · have hne := ne_of_gt h
    simp [h, cdiv, hne, Bind.bind, Except.bind]
  · simp [h, Bind.bind, Except.bind]

/-- The function `classify_traders` with its division checked. -/
def classify_tradersE (trades : List Trade) (pnl_data : List PnlRecord) :
    Except String (List ClassifyRecord) := do
  let trader_stats ← traderStatsPctE trades pnl_data
  let volumes := trader_stats.map (fun e => e.2.volume)
  let whale_thr := if volumes = [] then 0
    else (List.insertionSort qGE volumes).getD (min 10 (volumes.length - 1)) 0
  let results := trader_stats.map (classifyRecord whale_thr pnl_data)
  Except.ok (List.insertionSort volGE results)

theorem classify_tradersE_ok (trades : List Trade) (pnl_data : List PnlRecord) :
    classify_tradersE trades pnl_data = Except.ok (classify_traders trades pnl_data) := by
  unfold classify_tradersE
  rw [traderStatsPctE_ok]
  simp only [Bind.bind, Except.bind]
  rfl

/-- The zero-cost trader used to exhibit the 50-percent fallback. -/
def c8Trade : Trade :=
  { user := "z", amount := 0, outcome := "YES", prob_before := 50, prob_after := 50,
    timestamp := 1, date := "d", is_redemption := false }

/-- Counterexample to C8: the guarded `yes_pct` division defaults to 50,
not 0, for a trader with zero total cost. -/
theorem C8_counterexample :
    ((classify_traders [c8Trade] (estimate_pnl [c8Trade] (1/2))).map
      (fun r => r.yes_pct) = [50]) ∧ (50 : ℚ) ≠ 0 := by
  constructor
  · norm_num [classify_traders, traderStatsPct, traderStats, whaleThreshold, estimate_pnl,
      traderPositions, c8Trade, groupFold, updAssoc, lookupA, setAssoc, pnlStep, pnlRecord,
      statsStep, classifyRecord, pnlLookup, traderTypes, round2, round1, roundHalfEven,
      List.insertionSort, List.orderedInsert, qGE, volGE, pnlGE]
  · norm_num

/-- C8 amended: every runtime division in the five analyzers is either
guarded (the P&L share and ROI divisions, the average-entry, average-impact
and `yes_pct` divisions) or has a denominator forced non-zero by the
non-empty early return (`first_trade_pct`); no analyzer ever raises
`ZeroDivisionError`, but the guarded `yes_pct` division defaults to 50
rather than 0. -/
theorem C8_divisions_guarded_amended :
    ∀ (trades : List Trade) (ref : ℚ) (pnl_data : List PnlRecord),
      estimate_pnlE trades ref = Except.ok (estimate_pnl trades ref) ∧
      analyze_timingE trades = Except.ok (analyze_timing trades) ∧
      analyze_position_changesE trades = Except.ok (analyze_position_changes trades) ∧
      analyze_market_impactE trades = Except.ok (analyze_market_impact trades) ∧
      classify_tradersE trades pnl_data = Except.ok (classify_traders trades pnl_data) :=
  fun trades ref pnl_data =>
    ⟨estimate_pnlE_ok trades ref, analyze_timingE_ok trades,
      analyze_position_changesE_ok trades, analyze_market_impactE_ok trades,
      classify_tradersE_ok trades pnl_data⟩

/-! ## Claim C9 -/

/-- The accumulated position of trader `u` (the zero position when the
trader has not traded). -/
def posOf (u : String) (trades : List Trade) : TraderPos :=
  (lookupA u (traderPositions trades)).getD {}

/-- All four numeric position fields are non-negative. -/
def NonnegPos (p : TraderPos) : Prop :=
  0 ≤ p.yes_shares ∧ 0 ≤ p.no_shares ∧ 0 ≤ p.yes_cost ∧ 0 ≤ p.no_cost

theorem yesSharesOf_nonneg (t : Trade) (h : 0 ≤ t.amount) : 0 ≤ yesSharesOf t := by
  unfold yesSharesOf
  by_cases hp : t.prob_before / 100 > 0
  · rw [if_pos hp]
    exact div_nonneg h (le_of_lt hp)
  · rw [if_neg hp]

theorem noSharesOf_nonneg (t : Trade) (h : 0 ≤ t.amount) : 0 ≤ noSharesOf t := by
  unfold noSharesOf
  by_cases hp : t.prob_before / 100 < 1
  · rw [if_pos hp]
    refine div_nonneg h ?_
    linarith
  · rw [if_neg hp]

theorem pnlStep_nonneg (t : Trade) (h : 0 ≤ t.amount) (p : TraderPos) (hp : NonnegPos p) :
    NonnegPos (pnlStep t p) := by
  obtain ⟨h1, h2, h3, h4⟩ := hp
  refine ⟨?_, ?_, ?_, ?_⟩
  · rw [pnlStep_yes_shares]
    by_cases ho : t.outcome == "YES"
    · rw [if_pos ho]; exact add_nonneg h1 (yesSharesOf_nonneg t h)
    · rw [if_neg ho, add_zero]; exact h1
  · rw [pnlStep_no_shares]
    by_cases ho : t.outcome == "YES"
    · rw [if_pos ho, add_zero]; exact h2
    · rw [if_neg ho]; exact add_nonneg h2 (noSharesOf_nonneg t h)
  · rw [pnlStep_yes_cost]
    by_cases ho : t.outcome == "YES"
    · rw [if_pos ho]; exact add_nonneg h3 h
    · rw [if_neg ho, add_zero]; exact h3
  · rw [pnlStep_no_cost]
    by_cases ho : t.outcome == "YES"
    · rw [if_pos ho, add_zero]; exact h4
    · rw [if_neg ho]; exact add_nonneg h4 h

theorem foldl_preserves {σ τ : Type} (P : σ → Prop) (step : τ → σ → σ) (ts : List τ)
    (h : ∀ t ∈ ts, ∀ p, P p → P (step t p)) :
    ∀ (p0 : σ), P p0 → P (ts.foldl (fun a t => step t a) p0) := by
  induction ts with
  | nil => intro p0 hp; exact hp
  | cons t ts ih =>
    intro p0 hp
    rw [List.foldl_cons]
    exact ih (fun x hx => h x (List.mem_cons_of_mem _ hx)) _
      (h t (List.mem_cons_self _ _) p0 hp)

theorem posOf_nonneg (trades : List Trade) (hamt : ∀ s ∈ trades, 0 ≤ s.amount) (u : String) :
    NonnegPos (posOf u trades) := by
  unfold posOf
  cases hl : lookupA u (traderPositions trades) with
  | none => exact ⟨le_refl 0, le_refl 0, le_refl 0, le_refl 0⟩
  | some a =>
    have hmem := mem_of_lookupA u a _ hl
    have hchar := (mem_traderPositions trades u a hmem).2
    rw [Option.getD_some, hchar]
    refine foldl_preserves NonnegPos pnlStep _ ?_ {} ⟨le_refl 0, le_refl 0, le_refl 0, le_refl 0⟩
    intro t ht p hp
    have ht2 : t ∈ trades := List.mem_of_mem_filter ht
    exact pnlStep_nonneg t (hamt t ht2) p hp

theorem pnlStep_mono (t : Trade) (h : 0 ≤ t.amount) (p : TraderPos) :
    p.yes_shares ≤ (pnlStep t p).yes_shares ∧ p.no_shares ≤ (pnlStep t p).no_shares ∧
    p.yes_cost ≤ (pnlStep t p).yes_cost ∧ p.no_cost ≤ (pnlStep t p).no_cost := by
  refine ⟨?_, ?_, ?_, ?_⟩
  · rw [pnlStep_yes_shares]
    by_cases ho : t.outcome == "YES"
    · rw [if_pos ho]; exact le_add_of_nonneg_right (yesSharesOf_nonneg t h)
    · rw [if_neg ho, add_zero]
  · rw [pnlStep_no_shares]
    by_cases ho : t.outcome == "YES"
    · rw [if_pos ho, add_zero]
    · rw [if_neg ho]; exact le_add_of_nonneg_right (noSharesOf_nonneg t h)
  · rw [pnlStep_yes_cost]
    by_cases ho : t.outcome == "YES"
    · rw [if_pos ho]; exact le_add_of_nonneg_right h
    · rw [if_neg ho, add_zero]
  · rw [pnlStep_no_cost]
    by_cases ho : t.outcome == "YES"
    · rw [if_pos ho, add_zero]
    · rw [if_neg ho]; exact le_add_of_nonneg_right h

/-- The monotonicity statement of C9 for one more trade folded in. -/
def PosMonotone (trades : List Trade) (t : Trade) (u : String) : Prop :=
  NonnegPos (posOf u trades) ∧
  (posOf u trades).yes_shares ≤ (posOf u (trades ++ [t])).yes_shares ∧
  (posOf u trades).no_shares ≤ (posOf u (trades ++ [t])).no_shares ∧
  (posOf u trades).yes_cost ≤ (posOf u (trades ++ [t])).yes_cost ∧
  (posOf u trades).no_cost ≤ (posOf u (trades ++ [t])).no_cost

/-- C9: with non-negative trade amounts, the per-trader `yes_shares`,
`no_shares`, `yes_cost` and `no_cost` are non-negative and non-decreasing
as each successive non-redemption trade is folded in; no later trade of
either side decrements any of them. -/
theorem C9_position_accumulation :
    ∀ (trades : List Trade) (t : Trade),
      (∀ s ∈ trades, 0 ≤ s.amount) → 0 ≤ t.amount →
      ∀ (u : String), PosMonotone trades t u := by
  intro trades t hamt ht u
  refine ⟨posOf_nonneg trades hamt u, ?_⟩
  have happ : traderPositions (trades ++ [t]) =
      if t.is_redemption then traderPositions trades
      else updAssoc t.user (pnlStep t) {} (traderPositions trades) := by
    rw [traderPositions_eq, traderPositions_eq, groupFold_append]
    by_cases hr : t.is_redemption
    · rw [if_pos hr, groupFold_cons, if_pos hr]
      rfl
    · rw [if_neg hr, groupFold_cons, if_neg hr]
      rw [← traderPositions_eq]
      rfl
  by_cases hr : t.is_redemption
  · rw [if_pos hr] at happ
    unfold posOf
    rw [happ]
    exact ⟨le_refl _, le_refl _, le_refl _, le_refl _⟩
  · rw [if_neg hr] at happ
    by_cases hu : t.user = u
    · have hlook : posOf u (trades ++ [t]) = pnlStep t (posOf u trades) := by
        unfold posOf
        rw [happ, lookup_updAssoc, if_pos hu]
        rfl
      rw [hlook]
      exact pnlStep_mono t ht (posOf u trades)
    · have hlook : posOf u (trades ++ [t]) = posOf u trades := by
        unfold posOf
        rw [happ, lookup_updAssoc, if_neg hu]
      rw [hlook]
      exact ⟨le_refl _, le_refl _, le_refl _, le_refl _⟩

/-- Witness for C9: the concrete example trade appended to itself. -/
theorem C9_position_accumulation_witness : PosMonotone [c1Trade] c1Trade "alice" :=
  C9_position_accumulation [c1Trade] c1Trade (by decide) (by decide) "alice"

/-! ## Claim C10 -/

theorem traderTypes_whale (v wt : ℚ) (tc : ℕ) (yp roi : ℚ) (hv : v ≥ wt) :
    "WHALE" ∈ traderTypes v wt tc yp roi := by
  by_cases h2 : tc ≥ 20 <;> by_cases h3 : yp ≥ 80 <;> by_cases h4 : yp ≤ 20 <;>
    by_cases h5 : roi > 50 <;> by_cases h6 : roi < -30 <;>
    simp [traderTypes, hv, h2, h3, h4, h5, h6]

/-- What C10 asserts when at most 11 traders exist: the threshold is the
minimum total volume, and every trader is labelled WHALE. -/
def WhaleSpec (trades : List Trade) (pnl_data : List PnlRecord) : Prop :=
  (whaleThreshold trades pnl_data ∈
    (traderStatsPct trades pnl_data).map (fun e => e.2.volume)) ∧
  (∀ v ∈ (traderStatsPct trades pnl_data).map (fun e => e.2.volume),
    whaleThreshold trades pnl_data ≤ v) ∧
  (∀ r ∈ classify_traders trades pnl_data, "WHALE" ∈ r.types)

/-- C10: the whale threshold is the volume at descending rank
`min(10, number_of_traders - 1)`; with between 1 and 11 distinct traders
this is the smallest trader volume, so every trader receives WHALE. -/
theorem C10_whale_threshold :
    ∀ (trades : List Trade) (pnl_data : List PnlRecord),
      1 ≤ (traderStats trades).length → (traderStats trades).length ≤ 11 →
      WhaleSpec trades pnl_data := by
  intro trades pnl_data h1 h11
  have hlen : ((traderStatsPct trades pnl_data).map (fun e => e.2.volume)).length =
      (traderStats trades).length := by
    rw [List.length_map]
    unfold traderStatsPct
    rw [List.length_map]
  set volumes := (traderStatsPct trades pnl_data).map (fun e => e.2.volume) with hvol
  have hne : volumes ≠ [] := by
    intro hh
    rw [hh] at hlen
    simp at hlen
    omega
  have hwt : whaleThreshold trades pnl_data =
      (List.insertionSort qGE volumes).getD (min 10 (volumes.length - 1)) 0 := by
    unfold whaleThreshold
    rw [if_neg hne]
  have hmin : min 10 (volumes.length - 1) = volumes.length - 1 := by omega
  have hlt : volumes.length - 1 < (List.insertionSort qGE volumes).length := by
    rw [List.length_insertionSort]
    omega
  have hget : (List.insertionSort qGE volumes).getD (volumes.length - 1) 0 =
      (List.insertionSort qGE volumes).get ⟨volumes.length - 1, hlt⟩ := by
    rw [List.getD_eq_getElem?_getD, List.getElem?_eq_getElem hlt]
    rfl
  have hlow : ∀ v ∈ volumes, whaleThreshold trades pnl_data ≤ v := by
    intro v hv
    rw [hwt, hmin, hget]
    have hv2 : v ∈ List.insertionSort qGE volumes := (List.mem_insertionSort qGE).mpr hv
    obtain ⟨i, hi⟩ := List.mem_iff_get.mp hv2
    have hlen2 : (List.insertionSort qGE volumes).length = volumes.length :=
      List.length_insertionSort qGE volumes
    have hle : i ≤ (⟨volumes.length - 1, hlt⟩ : Fin (List.insertionSort qGE volumes).length) := by
      have h3 := i.isLt
      refine Fin.le_def.mpr ?_
      simp only []
      omega
    have hrel := (List.sorted_insertionSort qGE volumes).rel_get_of_le hle
    rw [hi] at hrel
    exact hrel
  refine ⟨?_, hlow, ?_⟩
  · rw [hwt, hmin, hget]
    exact (List.mem_insertionSort qGE).mp (List.get_mem _ _ _)
  · intro r hr
    unfold classify_traders at hr
    rw [List.mem_insertionSort] at hr
    obtain ⟨e, he, hre⟩ := List.mem_map.mp hr
    have htypes : r.types = traderTypes e.2.volume (whaleThreshold trades pnl_data) e.2.trades
        e.2.yes_pct (((pnlLookup pnl_data e.1).map (fun p => p.roi_pct)).getD 0) := by
      rw [← hre]; rfl
    rw [htypes]
    refine traderTypes_whale _ _ _ _ _ ?_
    exact hlow e.2.volume (List.mem_map.mpr ⟨e, he, rfl⟩)

/-- Witness for C10: a single-trader collection, whose sole trader is a
whale. -/
theorem C10_whale_threshold_witness : WhaleSpec [c1Trade] [] :=
  C10_whale_threshold [c1Trade] [] (by decide) (by decide)
